import Mathlib

/-! macapptool `staple.go`: archive cursor, bundle-identity resolver, extractor, staple
pipeline.

A shallow embedding of `src/staple.go`.

* Go strings are modelled by `String`; every operation of the program that looks inside a
  string looks for the ASCII bytes `.` and `/`, which never occur inside a multi-byte UTF-8
  sequence, so working on characters instead of bytes does not change any result.
* A Go function of `staple.go` returning `(T, error)` returns a Lean pair `T × Option Err`
  (`none` is `nil`), so that the value returned next to an error is visible. Collaborators
  and `Open()`, which passes on what the zip library returns, give an `Except`.
* A run-time panic (an index out of range) is the result `Outcome.panics`.
* The loop of `findPrimaryBundleID` takes one unit of fuel per iteration; the theorems about
  it show that fuel beyond the number of entries read always gives a result.
* Everything the program does to the outside world (temporary directory, sub-processes,
  directory listing, `stat`, rename, the zip library, the property-list reader, the signature
  verifier) is a field of `World`; every such call is appended to a trace of `Action`s.
  Console output (`fmt.Printf`) is not part of the trace. A collaborator answers as a
  function of its arguments; within one run the program never asks the same question twice.
* The standard-library path functions (`filepath.Ext`, `Base`, `Dir`, `Clean`, `Join`) are
  modelled for Unix (separator `/`, no volume names), which is where the tool runs.
-/

namespace Staple

/-! ## Standard library: `path/filepath` and `strings` -/

/-- Backward scan of `filepath.Ext`: `rev` is the part of the path not yet visited, last byte
first; `acc` is the suffix already visited. -/
def extScan : List Char → List Char → List Char
  | [], _ => []
  | c :: rev, acc =>
    if c = '/' then []
    else if c = '.' then c :: acc
    else extScan rev (c :: acc)

/-- Go `filepath.Ext`: the suffix beginning at the final dot in the final element of the path;
empty if there is no dot. -/
def filepathExt (path : String) : String :=
  ⟨extScan path.data.reverse []⟩

/-- Backtracking step of `filepath.Clean` on a `..` element: starting from write index `w`,
move left while `w > dotdot` and the byte at `w` is not a separator. -/
def cleanBack (out : List Char) (dotdot : Nat) : Nat → Nat
  | 0 => 0
  | w + 1 =>
    if dotdot < w + 1 ∧ out.get? (w + 1) ≠ some '/' then cleanBack out dotdot w else w + 1

/-- Main loop of `filepath.Clean`: `rest` is the unread input `path[r:]`, `out` the output
buffer, `dotdot` the index below which the output may not be backtracked. Every iteration
consumes at least one byte, so `fuel = len(path)` iterations are enough. -/
def cleanLoop (rooted : Bool) : Nat → List Char → List Char → Nat → List Char
  | 0, _, out, _ => out
  | _ + 1, [], out, _ => out
  | fuel + 1, c :: rest, out, dotdot =>
    if c = '/' then
      cleanLoop rooted fuel rest out dotdot
    else if c = '.' ∧ (rest = [] ∨ rest.head? = some '/') then
      cleanLoop rooted fuel rest out dotdot
    else if c = '.' ∧ rest.head? = some '.' ∧ (rest.tail = [] ∨ rest.tail.head? = some '/') then
      if dotdot < out.length then
        cleanLoop rooted fuel rest.tail (out.take (cleanBack out dotdot (out.length - 1))) dotdot
      else if !rooted then
        let out1 := if 0 < out.length then out ++ ['/'] else out
        let out2 := out1 ++ ['.', '.']
        cleanLoop rooted fuel rest.tail out2 out2.length
      else
        cleanLoop rooted fuel rest.tail out dotdot
    else
      let out1 :=
        if (rooted ∧ out.length ≠ 1) ∨ (!rooted ∧ out.length ≠ 0) then out ++ ['/'] else out
      cleanLoop rooted fuel ((c :: rest).dropWhile (· ≠ '/'))
        (out1 ++ (c :: rest).takeWhile (· ≠ '/')) dotdot

/-- Go `filepath.Clean` (Unix). -/
def filepathClean (path : String) : String :=
  match path.data with
  | [] => "."
  | c :: rest =>
    let rooted : Bool := c = '/'
    let out :=
      if rooted then cleanLoop true (rest.length + 1) rest ['/'] 1
      else cleanLoop false (rest.length + 1) (c :: rest) [] 0
    if out = [] then "." else ⟨out⟩

/-- Go `filepath.Join` of two elements: empty elements are ignored, the rest is joined with
the separator and cleaned; the result is empty when both are empty. -/
def filepathJoin (a b : String) : String :=
  if a ≠ "" then filepathClean (a ++ "/" ++ b)
  else if b ≠ "" then filepathClean b
  else ""

/-- Go `filepath.Base` (Unix): the last element of the path, trailing separators removed
first; `.` for the empty path and `/` for a path of separators only. -/
def filepathBase (path : String) : String :=
  if path = "" then "."
  else
    let stripped := (path.data.reverse.dropWhile (· = '/')).reverse
    let last := (stripped.reverse.takeWhile (· ≠ '/')).reverse
    if last = [] then "/" else ⟨last⟩

/-- Go `filepath.Dir` (Unix): everything up to and including the last separator, cleaned. -/
def filepathDir (path : String) : String :=
  filepathClean ⟨(path.data.reverse.dropWhile (· ≠ '/')).reverse⟩

/-- Go `strings.Split(s, "/")` on the characters of `s`. -/
def splitSlash : List Char → List (List Char)
  | [] => [[]]
  | c :: cs =>
    if c = '/' then [] :: splitSlash cs
    else
      match splitSlash cs with
      | [] => [[c]]
      | seg :: segs => (c :: seg) :: segs

/-- Go `strings.Split(s, "/")`. -/
def stringsSplit (s : String) : List String :=
  (splitSlash s.data).map String.mk

/-- Go `strings.IndexByte(s, c)`: the index of the first `c` in `s`, or `-1`. -/
def stringsIndexByte (s : String) (c : Char) : Int :=
  if c ∈ s.data then (s.data.indexOf c : Int) else -1

/-! ## Data model -/

/-- Error values that exist outside `staple.go`: the sentinel `io.EOF`, and whatever else the
standard library and the other packages return. -/
inductive LibErr where
  /-- The value `io.EOF`. -/
  | EOF
  /-- Any other error value, described by its message. -/
  | other (msg : String)
  deriving DecidableEq, Repr

/-- Go `error` values: the ones collaborators return, and the ones `staple.go` creates itself
with `fmt.Errorf` and `errors.New` (fresh values, which no collaborator can return). -/
inductive Err where
  /-- An error value passed on from a collaborator. -/
  | lib (e : LibErr)
  /-- The value `fmt.Errorf("can't read payload with extension %q", ext)`. -/
  | cantReadPayload (ext : String)
  /-- The value `errors.New("could not find Info.plist")`. -/
  | noInfoPlist
  /-- The value `fmt.Errorf("couldn't find any .app directories at %s", outputDir)`. -/
  | noAppDir (outputDir : String)
  /-- The value `fmt.Errorf("can't staple app in %s format", ext)`. -/
  | cantStaple (ext : String)
  deriving DecidableEq, Repr

/-- The value `io.EOF` as an `error`. -/
abbrev ioEOF : Err := .lib .EOF

/-- A collaborator result as the program sees it. -/
def fromLib {α : Type} : Except LibErr α → Except Err α
  | .ok a => .ok a
  | .error e => .error (.lib e)

/-- Result of a Go call that may end in a run-time panic instead of returning. -/
inductive Outcome (α : Type) where
  | returns (a : α)
  | panics
  deriving DecidableEq, Repr

/-- An entry of `zip.ReadCloser.File`: its `Name`, and what `File.Open()` gives (the stream,
modelled by its content, or an error). -/
structure zipFile where
  Name : String
  Open : Except LibErr String

/-- An `os.FileInfo` as far as the program looks at it. -/
structure FileInfo where
  Name : String
  IsDir : Bool
  Mode : Nat
  deriving DecidableEq, Repr

/-- The structure `plist.New` returns, as far as the program looks at it. -/
structure Plist where
  BundleIdentifier : Except LibErr String

/-- Go `subcommands.ExitStatus`. -/
inductive ExitStatus where
  | ExitSuccess
  | ExitFailure
  | ExitUsageError
  deriving DecidableEq, Repr

/-- The calls the program makes to its collaborators, in the order it makes them. -/
inductive Action where
  /-- The call `ioutil.TempDir(dir, pattern)`. -/
  | tempDir (dir pattern : String)
  /-- The call `os.RemoveAll(path)`. -/
  | removeAll (path : String)
  /-- The call `filepath.Abs(path)`. -/
  | abs (path : String)
  /-- A sub-process `args` run by `cmd.Run()` with working directory `dir` (empty: inherited). -/
  | exec (dir : String) (args : List String)
  /-- The call `ioutil.ReadDir(dir)`. -/
  | readDir (dir : String)
  /-- The call `os.Stat(path)`. -/
  | stat (path : String)
  /-- The call `verifySignature(path)`. -/
  | verifySignature (path : String)
  /-- The call `os.Rename(oldpath, newpath)`. -/
  | rename (oldpath newpath : String)
  /-- The call `zip.OpenReader(path)`. -/
  | zipOpenReader (path : String)
  /-- A call of `payloadReader.Next()`. -/
  | readerNext
  /-- The call `File[index].Open()` on the archive. -/
  | zipFileOpen (index : Nat)
  /-- The call `plist.New(stream)`. -/
  | plistNew
  /-- The call `BundleIdentifier()` on a parsed property list. -/
  | bundleIdentifier
  /-- The deferred `Close()` of an opened entry stream. -/
  | streamClose
  /-- The call `errPrintf("error stapling %s: %v\n", app, err)`. -/
  | errPrintf (app : String) (err : Err)
  deriving DecidableEq, Repr

/-- Outcomes of the collaborators. `isExecutable`, `verifySignature` and the `plist` package
are code outside `staple.go`; the rest is the Go standard library and the operating system. -/
structure World where
  tempDir : String → String → Except LibErr String
  abs : String → Except LibErr String
  exec : String → List String → Option LibErr
  readDir : String → Except LibErr (List FileInfo)
  stat : String → Except LibErr FileInfo
  isExecutable : FileInfo → Bool
  verifySignature : String → Option LibErr
  rename : String → String → Option LibErr
  zipOpenReader : String → Except LibErr (List zipFile)
  plistNew : String → Except LibErr Plist
  toLower : String → String

/-! ## Archive reader (`zipPayloadReader`) -/

/-- Go slice indexing `xs[i]`: panics when `i` is out of range. -/
def goIndex {α : Type} (xs : List α) (i : Int) : Outcome α :=
  if i < 0 then .panics
  else
    match xs.get? i.toNat with
    | some x => .returns x
    | none => .panics

/-- The cursor over an open archive: `r` is `r.r.File`, `pos` the Go `int` position. The
position is an unbounded integer here: it starts at `-1` and grows by one per `Next()`, so a
64-bit `int` would need `2^63` calls to wrap around. -/
structure zipPayloadReader where
  r : List zipFile
  pos : Int

/-- Source: `newZipPayloadReader`. -/
def newZipPayloadReader (zr : List zipFile) : zipPayloadReader :=
  { r := zr, pos := -1 }

/-- Source: `(*zipPayloadReader).Next`. Returns the `(string, error)` pair and the reader
after the call. -/
def zipPayloadReader.Next (r : zipPayloadReader) :
    Outcome (String × Option Err) × zipPayloadReader :=
  let r1 : zipPayloadReader := { r with pos := r.pos + 1 }
  if r1.pos ≥ (r1.r.length : Int) then (.returns ("", some ioEOF), r1)
  else
    match goIndex r1.r r1.pos with
    | .returns f => (.returns (f.Name, none), r1)
    | .panics => (.panics, r1)

/-- Source: `(*zipPayloadReader).Open`. The result of `File[pos].Open()` is passed on as it
is; the trace records which entry was opened. -/
def zipPayloadReader.Open (r : zipPayloadReader) :
    Outcome (Except Err String) × List Action :=
  if r.pos ≥ (r.r.length : Int) then (.returns (.error ioEOF), [])
  else
    match goIndex r.r r.pos with
    | .returns f => (.returns (fromLib f.Open), [.zipFileOpen r.pos.toNat])
    | .panics => (.panics, [])

/-! ## Running commands -/

/-- Source: `writeCommandOutputOnDir`, without the console output and the optional capture
writer: runs `args[0] args[1:]` in `dir` and returns what `cmd.Run()` returns. -/
def writeCommandOutputOnDir (w : World) (dir : String) (args : List String) :
    Option Err × List Action :=
  ((w.exec dir args).map Err.lib, [.exec dir args])

/-- Source: `runCommandOnDir`. -/
def runCommandOnDir (w : World) (dir : String) (args : List String) :
    Option Err × List Action :=
  writeCommandOutputOnDir w dir args

/-- Source: `runCommand`. -/
def runCommand (w : World) (args : List String) : Option Err × List Action :=
  runCommandOnDir w "" args

/-! ## Extractor -/

/-- The `for _, v := range entries` loop of `unzipPayload`: the first entry with extension
`.app` whose full path `os.Stat` reports as a directory, if any. -/
def unzipScan (w : World) (outputDir : String) : List FileInfo → Option String × List Action
  | [] => (none, [])
  | v :: rest =>
    let name := v.Name
    if filepathExt name = ".app" then
      let fullPath := filepathJoin outputDir name
      match w.stat fullPath with
      | .ok st =>
        if st.IsDir then (some fullPath, [.stat fullPath])
        else ((unzipScan w outputDir rest).1, .stat fullPath :: (unzipScan w outputDir rest).2)
      | .error _ =>
        ((unzipScan w outputDir rest).1, .stat fullPath :: (unzipScan w outputDir rest).2)
    else unzipScan w outputDir rest

/-- Source: `unzipPayload`. Returns `(path, canStaple, err)`. -/
def unzipPayload (w : World) (payload outputDir : String) :
    (String × Bool × Option Err) × List Action :=
  match w.abs payload with
  | .error err => (("", false, some (.lib err)), [.abs payload])
  | .ok abs =>
    match runCommandOnDir w outputDir ["unzip", abs] with
    | (some err, t1) => (("", false, some err), .abs payload :: t1)
    | (none, t1) =>
      match w.readDir outputDir with
      | .error err =>
        (("", false, some (.lib err)), .abs payload :: t1 ++ [.readDir outputDir])
      | .ok entries =>
        match unzipScan w outputDir entries with
        | (some fullPath, t2) =>
          ((fullPath, true, none), .abs payload :: t1 ++ [.readDir outputDir] ++ t2)
        | (none, t2) =>
          match entries with
          | [e0] =>
            if filepathExt e0.Name = "" ∧ w.isExecutable e0 = true then
              ((filepathJoin outputDir e0.Name, false, none),
                .abs payload :: t1 ++ [.readDir outputDir] ++ t2)
            else
              (("", false, some (.noAppDir outputDir)),
                .abs payload :: t1 ++ [.readDir outputDir] ++ t2)
          | _ =>
            (("", false, some (.noAppDir outputDir)),
              .abs payload :: t1 ++ [.readDir outputDir] ++ t2)

/-- Lines 237 to 239 of `makeAppZip`: the archive name for a base name. The slice
`basename[:len(basename)-len(ext)]` cuts the extension, a suffix of `basename`, off its end. -/
def zipFileName (basename : String) : String :=
  let ext := filepathExt basename
  let nonExt : String := ⟨basename.data.take (basename.length - ext.length)⟩
  nonExt ++ ".zip"

/-- Source: `makeAppZip`. Returns `(path, err)`. -/
def makeAppZip (w : World) (appDir : String) : (String × Option Err) × List Action :=
  let basename := filepathBase appDir
  let zipFile := zipFileName basename
  let dir := filepathDir appDir
  match runCommandOnDir w dir ["zip", "-9", "-y", "-r", zipFile, basename] with
  | (some err, t) => (("", some err), t)
  | (none, t) => ((filepathJoin dir zipFile, none), t)

/-! ## Staple / verify / repackage -/

/-- The part of `stapleAndVerify` that runs after `defer os.RemoveAll(dir)` is set. -/
def stapleAndVerifyBody (w : World) (zipFile dir : String) : Option Err × List Action :=
  match unzipPayload w zipFile dir with
  | ((_, _, some err), t1) => (some err, t1)
  | ((p, canStaple, none), t1) =>
    match (if canStaple then runCommand w ["xcrun", "stapler", "staple", p] else (none, [])) with
    | (some err, t2) => (some err, t1 ++ t2)
    | (none, t2) =>
      match w.verifySignature p with
      | some err => (some (.lib err), t1 ++ t2 ++ [.verifySignature p])
      | none =>
        if canStaple then
          match makeAppZip w p with
          | ((_, some err), t3) => (some err, t1 ++ t2 ++ [.verifySignature p] ++ t3)
          | ((newZipPath, none), t3) =>
            match w.rename newZipPath zipFile with
            | some err =>
              (some (.lib err),
                t1 ++ t2 ++ [.verifySignature p] ++ t3 ++ [.rename newZipPath zipFile])
            | none =>
              (none, t1 ++ t2 ++ [.verifySignature p] ++ t3 ++ [.rename newZipPath zipFile])
        else (none, t1 ++ t2 ++ [.verifySignature p])

/-- Source: `stapleAndVerify`. -/
def stapleAndVerify (w : World) (zipFile : String) : Option Err × List Action :=
  match w.tempDir "" "notarizer" with
  | .error err => (some (.lib err), [.tempDir "" "notarizer"])
  | .ok dir =>
    ((stapleAndVerifyBody w zipFile dir).1,
      .tempDir "" "notarizer" :: (stapleAndVerifyBody w zipFile dir).2 ++ [.removeAll dir])

/-- Source: `stapleRequest`. -/
structure stapleRequest where
  AppPath : String
  deriving DecidableEq, Repr

/-- Source: `staplePayload`. The value of `stapleAndVerify` is not used. -/
def staplePayload (w : World) (req : stapleRequest) : Option Err × List Action :=
  (none, (stapleAndVerify w req.AppPath).2)

/-- Source: `stapleFile`. -/
def stapleFile (w : World) (req : stapleRequest) : Option Err × List Action :=
  let ext := filepathExt req.AppPath
  if ext = ".zip" then staplePayload w req
  else if ext = ".app" ∨ ext = "" then
    match makeAppZip w req.AppPath with
    | ((_, some err), t) => (some err, t)
    | ((appZip, none), t) =>
      ((staplePayload w { req with AppPath := appZip }).1,
        t ++ (staplePayload w { req with AppPath := appZip }).2)
  else (some (.cantStaple ext), [])

/-- Source: `(*stapleCmd).stapleApp`. -/
def stapleApp (w : World) (p : String) : Option Err × List Action :=
  stapleFile w { AppPath := p }

/-- Source: `(*stapleCmd).Execute`; `args` are the positional arguments `f.Args()`. -/
def Execute (w : World) (args : List String) : ExitStatus × List Action :=
  match args with
  | [app] =>
    match stapleApp w app with
    | (some err, t) => (.ExitFailure, t ++ [.errPrintf app err])
    | (none, t) => (.ExitSuccess, t)
  | _ => (.ExitUsageError, [])

/-! ## Bundle identity resolver -/

/-- The condition of lines 174 to 177 on `parts := strings.Split(filename, "/")`. -/
def descriptorParts (parts : List String) : Bool :=
  match parts with
  | [p0, p1, p2] => filepathExt p0 = ".app" ∧ p1 = "Contents" ∧ p2 = "Info.plist"
  | _ => false

/-- What `findPrimaryBundleID` returns once the loop has ended on `io.EOF`. -/
def findFallback (count : Nat) (last : String) : String × Option Err :=
  if count = 1 ∧ stringsIndexByte last '/' < 0 then ("com.example." ++ last, none)
  else ("", some .noInfoPlist)

/-- What `findPrimaryBundleID` does with an entry whose name has the descriptor shape. -/
def findOpen (w : World) (pr : zipPayloadReader) :
    Outcome (String × Option Err) × List Action :=
  match pr.Open with
  | (.panics, t) => (.panics, t)
  | (.returns (.error err), t) => (.returns ("", some err), t)
  | (.returns (.ok ff), t) =>
    match w.plistNew ff with
    | .error err => (.returns ("", some (.lib err)), t ++ [.plistNew, .streamClose])
    | .ok pl =>
      match pl.BundleIdentifier with
      | .error err =>
        (.returns ("", some (.lib err)), t ++ [.plistNew, .bundleIdentifier, .streamClose])
      | .ok bundleID =>
        (.returns (bundleID, none), t ++ [.plistNew, .bundleIdentifier, .streamClose])

/-- The `for` loop of `findPrimaryBundleID` and what follows it; one unit of fuel per
iteration, `none` when the fuel runs out. -/
def findLoop (w : World) :
    Nat → zipPayloadReader → Nat → String → Option (Outcome (String × Option Err) × List Action)
  | 0, _, _, _ => none
  | fuel + 1, pr, count, last =>
    match pr.Next with
    | (.panics, _) => some (.panics, [.readerNext])
    | (.returns (_, some err), _) =>
      if err = ioEOF then some (.returns (findFallback count last), [.readerNext])
      else some (.returns ("", some err), [.readerNext])
    | (.returns (filename, none), pr1) =>
      if descriptorParts (stringsSplit filename) then
        some ((findOpen w pr1).1, .readerNext :: (findOpen w pr1).2)
      else
        match findLoop w fuel pr1 (count + 1) filename with
        | none => none
        | some (o, t) => some (o, .readerNext :: t)

/-- Source: `findPrimaryBundleID`, with `fuel` bounding the iterations of its loop. -/
def findPrimaryBundleID (w : World) (fuel : Nat) (payload : String) :
    Option (Outcome (String × Option Err) × List Action) :=
  if w.toLower (filepathExt payload) = ".zip" then
    match w.zipOpenReader payload with
    | .error err => some (.returns ("", some (.lib err)), [.zipOpenReader payload])
    | .ok zr =>
      match findLoop w fuel (newZipPayloadReader zr) 0 "" with
      | none => none
      | some (o, t) => some (o, .zipOpenReader payload :: t)
  else some (.returns ("", some (.cantReadPayload (filepathExt payload))), [])

/-! ## Notions used in the statements, and examples -/

/-- The reader after `k` calls of `Next()`. -/
def zipPayloadReader.afterCalls (k : Nat) (r : zipPayloadReader) : zipPayloadReader :=
  (fun p : zipPayloadReader => p.Next.2)^[k] r

/-- Whether `os.Stat(path)` succeeds and reports a directory. -/
def statIsDir (w : World) (path : String) : Bool :=
  match w.stat path with
  | .ok st => st.IsDir
  | .error _ => false

/-- A child of `outputDir` that has the `.app` extension and is a directory. -/
def isAppDir (w : World) (outputDir : String) (v : FileInfo) : Bool :=
  decide (filepathExt v.Name = ".app") && statIsDir w (filepathJoin outputDir v.Name)

/-- A listing that consists of one child, without extension and marked executable. -/
def singleExecutable (w : World) (entries : List FileInfo) : Prop :=
  ∃ e0, entries = [e0] ∧ filepathExt e0.Name = "" ∧ w.isExecutable e0 = true

/-- A world for examples: the temporary directory is `/tmp/notarizer1`, every sub-process
succeeds, the output directory lists `listing`, and the verifier answers `verify`. -/
def demoWorld (listing : List FileInfo) (verify : Option LibErr) : World where
  tempDir := fun _ _ => .ok "/tmp/notarizer1"
  abs := fun p => .ok (filepathJoin "/work" p)
  exec := fun _ _ => none
  readDir := fun _ => .ok listing
  stat := fun p =>
    match listing.find? (fun fi => filepathJoin "/tmp/notarizer1" fi.Name = p) with
    | some fi => .ok fi
    | none => .error (.other "no such file or directory")
  isExecutable := fun fi => !fi.IsDir && (fi.Mode / 64) % 2 = 1
  verifySignature := fun _ => verify
  rename := fun _ _ => none
  zipOpenReader := fun _ => .error (.other "not a valid zip file")
  plistNew := fun _ => .error (.other "not a property list")
  toLower := fun s => ⟨s.data.map Char.toLower⟩

/-- Example listing: two bundle directories. -/
def twoBundles : List FileInfo :=
  [⟨"A.app", true, 0o755⟩, ⟨"B.app", true, 0o755⟩]

/-- Example listing: one bundle directory and one other file. -/
def bundleAndReadme : List FileInfo :=
  [⟨"A.app", true, 0o755⟩, ⟨"README.txt", false, 0o644⟩]

/-- Example listing: one extensionless executable. -/
def bareTool : List FileInfo :=
  [⟨"tool", false, 0o755⟩]

/-- Whether an action is an `os.Rename`. -/
def Action.isRename : Action → Bool
  | .rename _ _ => true
  | _ => false

/-- Whether an action runs the compression tool `zip`. -/
def Action.isZip : Action → Bool
  | .exec _ ("zip" :: _) => true
  | _ => false

/-- Whether an entry name has the descriptor shape the resolver looks for. -/
def isDescriptor (f : zipFile) : Bool :=
  descriptorParts (stringsSplit f.Name)

/-- The value of the variable `last` after the loop has run over `rest`. -/
def lastName : String → List zipFile → String
  | last, [] => last
  | _, f :: rest => lastName f.Name rest

/-- Example archive: a nested descriptor, a resource, then two top-level descriptors. -/
def demoArchive : List zipFile :=
  [⟨"dir/Name.app/Contents/Info.plist", .ok "nested"⟩,
   ⟨"Name.app/Contents/PkgInfo", .ok "APPL"⟩,
   ⟨"Name.app/Contents/Info.plist", .ok "first"⟩,
   ⟨"Other.app/Contents/Info.plist", .ok "second"⟩]

/-- A world for examples of identity resolution: `zip.OpenReader` gives `archive`, the
property list of a stream with content `c` has bundle identifier `com.acme.` followed by
`c`. -/
def demoZipWorld (archive : List zipFile) : World :=
  { demoWorld [] none with
    zipOpenReader := fun _ => .ok archive
    plistNew := fun c => .ok ⟨.ok ("com.acme." ++ c)⟩ }

/-! ## Archive reader: proofs -/

theorem Next_snd (r : zipPayloadReader) : r.Next.2 = { r with pos := r.pos + 1 } := by
  unfold zipPayloadReader.Next
  simp only []
  split
  · rfl
  · split <;> rfl

theorem afterCalls_eq (zr : List zipFile) (p : Int) (k : Nat) :
    zipPayloadReader.afterCalls k { r := zr, pos := p } = { r := zr, pos := p + k } := by
  induction k generalizing p with
  | zero => simp [zipPayloadReader.afterCalls]
  | succ k ih =>
    have h := ih (p + 1)
    simp only [zipPayloadReader.afterCalls, Function.iterate_succ, Function.comp_apply,
      Next_snd] at h ⊢
    rw [h]
    congr 1
    push_cast
    ring

theorem afterCalls_fresh (zr : List zipFile) (k : Nat) :
    (newZipPayloadReader zr).afterCalls k = { r := zr, pos := (k : Int) - 1 } := by
  rw [newZipPayloadReader, afterCalls_eq]
  have h : (-1 : Int) + (k : Int) = (k : Int) - 1 := by ring
  rw [h]

theorem goIndex_natCast {α : Type} (xs : List α) (i : Nat) (x : α) (h : xs.get? i = some x) :
    goIndex xs (i : Int) = .returns x := by
  unfold goIndex
  have hneg : ¬ ((i : Int) < 0) := by omega
  rw [if_neg hneg, Int.toNat_ofNat, h]

theorem goIndex_neg {α : Type} (xs : List α) (i : Int) (h : i < 0) :
    goIndex xs i = .panics := by
  unfold goIndex
  simp [h]

/-- Claim C7: on a fresh reader over entries `e_0 .. e_(n-1)`, the `k`-th call of `Next()`
for `1 ≤ k ≤ n` returns the name of `e_(k-1)` and no error, an `Open()` made right after it
opens exactly entry `k-1` and passes on what that entry gives, and the `k`-th call for every
`k > n` returns the empty name together with `io.EOF`. -/
theorem C7_cursor_enumerates_in_order (zr : List zipFile) :
    (∀ k : Nat, 1 ≤ k → k ≤ zr.length →
      ∃ e, zr.get? (k - 1) = some e ∧
        ((newZipPayloadReader zr).afterCalls (k - 1)).Next.1 = .returns (e.Name, none) ∧
        ((newZipPayloadReader zr).afterCalls k).Open
          = (.returns (fromLib e.Open), [.zipFileOpen (k - 1)])) ∧
    (∀ k : Nat, zr.length < k →
      ((newZipPayloadReader zr).afterCalls (k - 1)).Next.1 = .returns ("", some ioEOF)) := by
  refine ⟨?_, ?_⟩
  · intro k h1 hk
    obtain ⟨j, rfl⟩ : ∃ j, k = j + 1 := ⟨k - 1, by omega⟩
    have hj : j < zr.length := by omega
    refine ⟨zr.get ⟨j, hj⟩, ?_, ?_, ?_⟩
    · simp [List.get?_eq_get hj]
    · rw [afterCalls_fresh]
      have hidx := goIndex_natCast zr j (zr.get ⟨j, hj⟩) (List.get?_eq_get hj)
      have hlt : ¬ ((j : Int) ≥ (zr.length : Int)) := by omega
      have hpos : ((j : Int) - 1 + 1) = (j : Int) := by ring
      simp only [Nat.add_sub_cancel, zipPayloadReader.Next, hpos, hlt, if_false, hidx]
    · rw [afterCalls_fresh]
      have hidx := goIndex_natCast zr j (zr.get ⟨j, hj⟩) (List.get?_eq_get hj)
      have hpos : (((j + 1 : Nat) : Int) - 1) = (j : Int) := by push_cast; ring
      have hlt : ¬ ((j : Int) ≥ (zr.length : Int)) := by omega
      simp only [Nat.add_sub_cancel, zipPayloadReader.Open, hpos, hlt, if_false, hidx,
        Int.toNat_ofNat]
  · intro k hk
    rw [afterCalls_fresh]
    have hge : (((k - 1 : Nat) : Int) - 1 + 1 ≥ (zr.length : Int)) := by omega
    simp only [zipPayloadReader.Next, hge, if_true]

/-- Claim C6, the code at the two positions: `Open()` on a fresh reader, before any `Next()`,
indexes `File[-1]` and panics for every archive, empty or not; `Open()` after `Next()` has
returned `io.EOF` (any number of calls beyond the last entry) returns the error `io.EOF`, no
stream, and opens nothing. -/
theorem C6_open_outside_position (zr : List zipFile) :
    (newZipPayloadReader zr).Open = (.panics, []) ∧
    (∀ k : Nat, zr.length < k →
      ((newZipPayloadReader zr).afterCalls (k - 1)).Next.1 = .returns ("", some ioEOF) ∧
      ((newZipPayloadReader zr).afterCalls k).Open = (.returns (.error ioEOF), [])) := by
  refine ⟨?_, ?_⟩
  · have hlt : ¬ ((-1 : Int) ≥ (zr.length : Int)) := by omega
    simp only [newZipPayloadReader, zipPayloadReader.Open, hlt, if_false,
      goIndex_neg zr (-1) (by omega)]
  · intro k hk
    refine ⟨?_, ?_⟩
    · rw [afterCalls_fresh]
      have hge : (((k - 1 : Nat) : Int) - 1 + 1 ≥ (zr.length : Int)) := by omega
      simp only [zipPayloadReader.Next, hge, if_true]
    · rw [afterCalls_fresh]
      have hge : ((k : Int) - 1 ≥ (zr.length : Int)) := by omega
      simp only [zipPayloadReader.Open, hge, if_true]

/-! ## Extractor: proofs -/

theorem unzipScan_fst (w : World) (outputDir : String) (entries : List FileInfo) :
    (unzipScan w outputDir entries).1
      = (entries.find? (isAppDir w outputDir)).map (fun v => filepathJoin outputDir v.Name) := by
  induction entries with
  | nil => rfl
  | cons v rest ih =>
    unfold unzipScan
    simp only [List.find?_cons, isAppDir, statIsDir]
    by_cases hext : filepathExt v.Name = ".app"
    · simp only [hext, if_true, decide_True, Bool.true_and]
      cases hst : w.stat (filepathJoin outputDir v.Name) with
      | error e => simpa [isAppDir, statIsDir] using ih
      | ok st =>
        cases hd : st.IsDir with
        | true => simp [hd]
        | false => simpa [hd, isAppDir, statIsDir] using ih
    · simpa [hext, isAppDir, statIsDir] using ih

theorem unzipScan_trace (w : World) (outputDir : String) (entries : List FileInfo) :
    ∀ a ∈ (unzipScan w outputDir entries).2, ∃ p, a = Action.stat p := by
  induction entries with
  | nil => intro a ha; simp [unzipScan] at ha
  | cons v rest ih =>
    intro a ha
    unfold unzipScan at ha
    simp only [] at ha
    split at ha
    · split at ha
      · split at ha
        · simp only [List.mem_singleton] at ha
          exact ⟨_, ha⟩
        · rcases List.mem_cons.1 ha with h | h
          · exact ⟨_, h⟩
          · exact ih a h
      · rcases List.mem_cons.1 ha with h | h
        · exact ⟨_, h⟩
        · exact ih a h
    · exact ih a ha

/-- What `unzipPayload` returns once `filepath.Abs`, `unzip` and `ioutil.ReadDir` have
succeeded, by the listing. -/
theorem unzipPayload_listing (w : World) (payload outputDir abs : String)
    (entries : List FileInfo) (habs : w.abs payload = .ok abs)
    (hrun : w.exec outputDir ["unzip", abs] = none) (hdir : w.readDir outputDir = .ok entries) :
    (unzipPayload w payload outputDir).1 =
      match entries.find? (isAppDir w outputDir) with
      | some v => (filepathJoin outputDir v.Name, true, none)
      | none =>
        match entries with
        | [e0] =>
          if filepathExt e0.Name = "" ∧ w.isExecutable e0 = true then
            (filepathJoin outputDir e0.Name, false, none)
          else ("", false, some (.noAppDir outputDir))
        | _ => ("", false, some (.noAppDir outputDir)) := by
  have hscan := unzipScan_fst w outputDir entries
  unfold unzipPayload
  simp only [habs, runCommandOnDir, writeCommandOutputOnDir, hrun, Option.map_none', hdir]
  cases hfind : entries.find? (isAppDir w outputDir) with
  | some v =>
    rw [hfind] at hscan
    rcases hres : unzipScan w outputDir entries with ⟨o, t⟩
    rw [hres] at hscan
    simp only [Option.map_some'] at hscan
    subst hscan
    rfl
  | none =>
    rw [hfind] at hscan
    rcases hres : unzipScan w outputDir entries with ⟨o, t⟩
    rw [hres] at hscan
    simp only [Option.map_none'] at hscan
    subst hscan
    rcases entries with _ | ⟨e0, _ | ⟨e1, rest⟩⟩
    · rfl
    · by_cases hx : filepathExt e0.Name = "" ∧ w.isExecutable e0 = true
      · simp only [hx, and_self, if_true]
      · simp only [hx, if_false]
    · rfl

/-- `unzipPayload` returns no error only when the three calls before the classification have
succeeded. -/
theorem unzipPayload_ok_inv (w : World) (payload outputDir p : String) (canStaple : Bool)
    (h : (unzipPayload w payload outputDir).1 = (p, canStaple, none)) :
    ∃ abs entries, w.abs payload = .ok abs ∧ w.exec outputDir ["unzip", abs] = none ∧
      w.readDir outputDir = .ok entries := by
  cases habs : w.abs payload with
  | error e => simp [unzipPayload, habs] at h
  | ok abs =>
    cases hrun : w.exec outputDir ["unzip", abs] with
    | some e =>
      simp [unzipPayload, habs, runCommandOnDir, writeCommandOutputOnDir, hrun] at h
    | none =>
      cases hdir : w.readDir outputDir with
      | error e =>
        simp [unzipPayload, habs, runCommandOnDir, writeCommandOutputOnDir, hrun, hdir] at h
      | ok entries => exact ⟨abs, entries, rfl, hrun, rfl⟩

theorem find_isAppDir_none (w : World) (outputDir : String) (entries : List FileInfo) :
    entries.find? (isAppDir w outputDir) = none ↔ ∀ v ∈ entries, isAppDir w outputDir v = false := by
  simp [List.find?_eq_none]

/-- Claim C3, as the code has it: a listing with several children is not rejected. After a
successful extraction and listing, `unzipPayload` returns `stapleEligible = true` exactly
when at least one child has the `.app` extension and is a directory; it then returns the
first such child in listing order, whatever the other children are; and it fails with the
"no .app directories" error exactly when no child is such a directory and the listing is not
a single extensionless executable. -/
theorem C3_first_app_directory_wins (w : World) (payload outputDir abs : String)
    (entries : List FileInfo) (habs : w.abs payload = .ok abs)
    (hrun : w.exec outputDir ["unzip", abs] = none) (hdir : w.readDir outputDir = .ok entries) :
    ((unzipPayload w payload outputDir).1.2.1 = true
        ↔ ∃ v ∈ entries, isAppDir w outputDir v = true) ∧
    (∀ pre v post, entries = pre ++ v :: post → (∀ u ∈ pre, isAppDir w outputDir u = false) →
        isAppDir w outputDir v = true →
        (unzipPayload w payload outputDir).1 = (filepathJoin outputDir v.Name, true, none)) ∧
    ((unzipPayload w payload outputDir).1.2.2 = some (.noAppDir outputDir)
        ↔ (∀ v ∈ entries, isAppDir w outputDir v = false) ∧ ¬ singleExecutable w entries) := by
  have hl := unzipPayload_listing w payload outputDir abs entries habs hrun hdir
  refine ⟨?_, ?_, ?_⟩
  · cases hfind : entries.find? (isAppDir w outputDir) with
    | some v =>
      rw [hfind] at hl
      rw [hl]
      have hv := List.find?_some hfind
      have hmem := List.mem_of_find?_eq_some hfind
      simp only [true_iff]
      exact ⟨v, hmem, hv⟩
    | none =>
      rw [hfind] at hl
      have hnone := (find_isAppDir_none w outputDir entries).1 hfind
      have hfalse : (unzipPayload w payload outputDir).1.2.1 = false := by
        rw [hl]
        rcases entries with _ | ⟨e0, _ | ⟨e1, rest⟩⟩
        · rfl
        · simp only []
          split <;> rfl
        · rfl
      rw [hfalse]
      constructor
      · intro h; cases h
      · rintro ⟨v, hv, hvt⟩
        rw [hnone v hv] at hvt
        cases hvt
  · intro pre v post hsplit hpre hv
    have hfind : entries.find? (isAppDir w outputDir) = some v := by
      rw [List.find?_eq_some]
      refine ⟨hv, pre, post, hsplit, ?_⟩
      intro a ha
      simp [hpre a ha]
    rw [hfind] at hl
    exact hl
  · cases hfind : entries.find? (isAppDir w outputDir) with
    | some v =>
      rw [hfind] at hl
      rw [hl]
      have hv := List.find?_some hfind
      have hmem := List.mem_of_find?_eq_some hfind
      constructor
      · intro h; cases h
      · rintro ⟨hall, -⟩
        rw [hall v hmem] at hv
        cases hv
    | none =>
      rw [hfind] at hl
      have hnone := (find_isAppDir_none w outputDir entries).1 hfind
      rw [hl]
      rcases entries with _ | ⟨e0, _ | ⟨e1, rest⟩⟩
      · simp [singleExecutable, hnone]
      · simp only []
        by_cases hx : filepathExt e0.Name = "" ∧ w.isExecutable e0 = true
        · simp only [hx, and_self, if_true]
          constructor
          · intro h; cases h
          · rintro ⟨-, hns⟩
            exact absurd ⟨e0, rfl, hx.1, hx.2⟩ hns
        · simp only [hx, if_false, true_iff]
          refine ⟨hnone, ?_⟩
          rintro ⟨e, he, h1, h2⟩
          simp only [List.cons.injEq, and_true] at he
          subst he
          exact hx ⟨h1, h2⟩
      · simp only [true_iff]
        refine ⟨hnone, ?_⟩
        rintro ⟨e, he, -⟩
        simp at he

/-- Claim C3 as stated fails: with two `.app` directories in the listing, and with one `.app`
directory next to another file, `unzipPayload` succeeds and returns the first bundle. -/
theorem C3_ambiguous_listing_accepted :
    (∀ v ∈ twoBundles, isAppDir (demoWorld twoBundles none) "/tmp/notarizer1" v = true) ∧
    (unzipPayload (demoWorld twoBundles none) "App.zip" "/tmp/notarizer1").1
      = ("/tmp/notarizer1/A.app", true, none) ∧
    (unzipPayload (demoWorld bundleAndReadme none) "App.zip" "/tmp/notarizer1").1
      = ("/tmp/notarizer1/A.app", true, none) := by
  decide

/-- Claim C3, the amended statement at the listing `[A.app, B.app]` of two directories. -/
theorem C3_first_app_directory_wins_witness :
    (demoWorld twoBundles none).abs "App.zip" = .ok "/work/App.zip" ∧
    (demoWorld twoBundles none).exec "/tmp/notarizer1" ["unzip", "/work/App.zip"] = none ∧
    (demoWorld twoBundles none).readDir "/tmp/notarizer1" = .ok twoBundles ∧
    (unzipPayload (demoWorld twoBundles none) "App.zip" "/tmp/notarizer1").1
      = (filepathJoin "/tmp/notarizer1" "A.app", true, none) :=
  ⟨congrArg Except.ok (by decide), rfl, rfl,
    (C3_first_app_directory_wins (demoWorld twoBundles none) "App.zip" "/tmp/notarizer1"
      "/work/App.zip" twoBundles (congrArg Except.ok (by decide)) rfl rfl).2.1
      [] ⟨"A.app", true, 0o755⟩ [⟨"B.app", true, 0o755⟩] rfl (by simp) (by decide)⟩

/-- Claim C9: whenever `unzipPayload` succeeds, either it returns `stapleEligible = true` and
the path is `outputDir` joined with a child that has the `.app` extension and is a
directory, or it returns `stapleEligible = false`, the listing is exactly one child, without
extension and marked executable (and no `.app` directory), and the path is `outputDir`
joined with its name. A listing without `.app` directory that is not a single extensionless
executable fails with the "no .app directories" error, an empty path and
`stapleEligible = false`. -/
theorem C9_bare_executable_not_eligible (w : World) (payload outputDir : String) :
    (∀ p canStaple, (unzipPayload w payload outputDir).1 = (p, canStaple, none) →
      ∃ abs entries, w.abs payload = .ok abs ∧ w.exec outputDir ["unzip", abs] = none ∧
        w.readDir outputDir = .ok entries ∧
        ((canStaple = true ∧ ∃ v ∈ entries, filepathExt v.Name = ".app" ∧
            statIsDir w (filepathJoin outputDir v.Name) = true ∧
            p = filepathJoin outputDir v.Name) ∨
         (canStaple = false ∧ (∀ v ∈ entries, isAppDir w outputDir v = false) ∧
            ∃ e0, entries = [e0] ∧ filepathExt e0.Name = "" ∧ w.isExecutable e0 = true ∧
              p = filepathJoin outputDir e0.Name))) ∧
    (∀ abs entries, w.abs payload = .ok abs → w.exec outputDir ["unzip", abs] = none →
      w.readDir outputDir = .ok entries → (∀ v ∈ entries, isAppDir w outputDir v = false) →
      ¬ singleExecutable w entries →
      (unzipPayload w payload outputDir).1 = ("", false, some (.noAppDir outputDir))) := by
  refine ⟨?_, ?_⟩
  · intro p canStaple h
    obtain ⟨abs, entries, habs, hrun, hdir⟩ := unzipPayload_ok_inv w payload outputDir p canStaple h
    refine ⟨abs, entries, habs, hrun, hdir, ?_⟩
    have hl := unzipPayload_listing w payload outputDir abs entries habs hrun hdir
    rw [h] at hl
    cases hfind : entries.find? (isAppDir w outputDir) with
    | some v =>
      rw [hfind] at hl
      have hv := List.find?_some hfind
      have hmem := List.mem_of_find?_eq_some hfind
      simp only [Prod.mk.injEq] at hl
      simp only [isAppDir, Bool.and_eq_true, decide_eq_true_eq] at hv
      exact Or.inl ⟨hl.2.1, v, hmem, hv.1, hv.2, hl.1⟩
    | none =>
      rw [hfind] at hl
      have hnone := (find_isAppDir_none w outputDir entries).1 hfind
      rcases entries with _ | ⟨e0, _ | ⟨e1, rest⟩⟩
      · simp at hl
      · simp only [] at hl
        by_cases hx : filepathExt e0.Name = "" ∧ w.isExecutable e0 = true
        · simp only [hx, and_self, if_true, Prod.mk.injEq] at hl
          exact Or.inr ⟨hl.2.1, hnone, e0, rfl, hx.1, hx.2, hl.1⟩
        · simp [hx] at hl
      · simp at hl
  · intro abs entries habs hrun hdir hnone hns
    have hl := unzipPayload_listing w payload outputDir abs entries habs hrun hdir
    rw [(find_isAppDir_none w outputDir entries).2 hnone] at hl
    rw [hl]
    rcases entries with _ | ⟨e0, _ | ⟨e1, rest⟩⟩
    · rfl
    · simp only []
      by_cases hx : filepathExt e0.Name = "" ∧ w.isExecutable e0 = true
      · exact absurd ⟨e0, rfl, hx.1, hx.2⟩ hns
      · simp only [hx, if_false]
    · rfl

/-- Claim C9 at the listing `[tool]`, one extensionless executable: the result is not
staple-eligible, with root `tool`. -/
theorem C9_bare_executable_not_eligible_witness :
    (unzipPayload (demoWorld bareTool none) "tool.zip" "/tmp/notarizer1").1
      = ("/tmp/notarizer1/tool", false, none) ∧
    ∃ abs entries, (demoWorld bareTool none).abs "tool.zip" = .ok abs ∧
      (demoWorld bareTool none).exec "/tmp/notarizer1" ["unzip", abs] = none ∧
      (demoWorld bareTool none).readDir "/tmp/notarizer1" = .ok entries ∧
      (((false : Bool) = true ∧ ∃ v ∈ entries, filepathExt v.Name = ".app" ∧
          statIsDir (demoWorld bareTool none) (filepathJoin "/tmp/notarizer1" v.Name) = true ∧
          "/tmp/notarizer1/tool" = filepathJoin "/tmp/notarizer1" v.Name) ∨
       ((false : Bool) = false ∧
          (∀ v ∈ entries, isAppDir (demoWorld bareTool none) "/tmp/notarizer1" v = false) ∧
          ∃ e0, entries = [e0] ∧ filepathExt e0.Name = "" ∧
            (demoWorld bareTool none).isExecutable e0 = true ∧
            "/tmp/notarizer1/tool" = filepathJoin "/tmp/notarizer1" e0.Name)) :=
  ⟨by decide,
    (C9_bare_executable_not_eligible (demoWorld bareTool none) "tool.zip" "/tmp/notarizer1").1
      "/tmp/notarizer1/tool" false (by decide)⟩

/-! ## `makeAppZip`: proofs -/

theorem extScan_suffix (rev acc : List Char) :
    extScan rev acc = [] ∨ ∃ pre, rev.reverse ++ acc = pre ++ extScan rev acc := by
  induction rev generalizing acc with
  | nil => exact Or.inl rfl
  | cons c rev ih =>
    unfold extScan
    by_cases h1 : c = '/'
    · exact Or.inl (by simp [h1])
    · by_cases h2 : c = '.'
      · refine Or.inr ⟨rev.reverse, ?_⟩
        simp [h2]
      · simp only [h1, h2, if_false]
        rcases ih (c :: acc) with h | ⟨pre, h⟩
        · exact Or.inl h
        · exact Or.inr ⟨pre, by simpa using h⟩

theorem filepathExt_suffix (s : String) : ∃ pre : List Char, s.data = pre ++ (filepathExt s).data := by
  rcases extScan_suffix s.data.reverse [] with h | ⟨pre, h⟩
  · exact ⟨s.data, by simp [filepathExt, h]⟩
  · exact ⟨pre, by simpa [filepathExt] using h⟩

theorem zipFileName_spec (basename : String) :
    ∃ nonExt : String, basename = nonExt ++ filepathExt basename ∧
      zipFileName basename = nonExt ++ ".zip" := by
  obtain ⟨pre, hpre⟩ := filepathExt_suffix basename
  refine ⟨⟨pre⟩, ?_, ?_⟩
  · apply String.ext
    simpa using hpre
  · have hlen : basename.length - (filepathExt basename).length = pre.length := by
      simp only [String.length, hpre, List.length_append]
      have : ((filepathExt basename).data).length = (filepathExt basename).data.length := rfl
      omega
    have htake : basename.data.take pre.length = pre := by
      rw [hpre]
      simp
    simp only [zipFileName, hlen, htake]

theorem makeAppZip_trace (w : World) (appDir : String) :
    (makeAppZip w appDir).2 =
      [.exec (filepathDir appDir)
        ["zip", "-9", "-y", "-r", zipFileName (filepathBase appDir), filepathBase appDir]] := by
  unfold makeAppZip
  simp only [runCommandOnDir, writeCommandOutputOnDir]
  cases w.exec (filepathDir appDir)
    ["zip", "-9", "-y", "-r", zipFileName (filepathBase appDir), filepathBase appDir] <;> rfl

theorem makeAppZip_fst (w : World) (appDir : String) :
    (makeAppZip w appDir).1 =
      match w.exec (filepathDir appDir)
        ["zip", "-9", "-y", "-r", zipFileName (filepathBase appDir), filepathBase appDir] with
      | some e => ("", some (.lib e))
      | none => (filepathJoin (filepathDir appDir) (zipFileName (filepathBase appDir)), none) := by
  unfold makeAppZip
  simp only [runCommandOnDir, writeCommandOutputOnDir]
  cases w.exec (filepathDir appDir)
    ["zip", "-9", "-y", "-r", zipFileName (filepathBase appDir), filepathBase appDir] <;> rfl

theorem dropWhile_head_false {α : Type} (p : α → Bool) (l : List α) (x : α) (xs : List α)
    (h : l.dropWhile p = x :: xs) : p x = false := by
  induction l with
  | nil => simp at h
  | cons y ys ih =>
    rw [List.dropWhile_cons] at h
    by_cases hy : p y = true
    · rw [if_pos hy] at h
      exact ih h
    · rw [if_neg hy] at h
      simp only [List.cons.injEq] at h
      rw [← h.1]
      simpa using hy

theorem base_dir_split (appDir : String) (hne : appDir ≠ "")
    (hlast : appDir.data.getLast? ≠ some '/') :
    ∃ d : List Char, appDir.data = d ++ (filepathBase appDir).data ∧
      filepathDir appDir = filepathClean ⟨d⟩ ∧ (d = [] ∨ d.getLast? = some '/') := by
  have hdne : appDir.data ≠ [] := by
    intro h
    exact hne (String.ext (by simpa using h))
  obtain ⟨c, cs, hrev⟩ : ∃ c cs, appDir.data.reverse = c :: cs := by
    rcases hr : appDir.data.reverse with _ | ⟨c, cs⟩
    · exact absurd (List.reverse_eq_nil_iff.1 hr) hdne
    · exact ⟨c, cs, rfl⟩
  have hc : c ≠ '/' := by
    intro h
    apply hlast
    rw [List.getLast?_eq_head?_reverse, hrev, h]
    rfl
  have hstrip : (appDir.data.reverse.dropWhile (· = '/')) = appDir.data.reverse := by
    rw [hrev]
    simp [List.dropWhile_cons, hc]
  have htw : (appDir.data.reverse.takeWhile (· ≠ '/')) ≠ [] := by
    rw [hrev]
    simp [List.takeWhile_cons, hc]
  refine ⟨(appDir.data.reverse.dropWhile (· ≠ '/')).reverse, ?_, rfl, ?_⟩
  · have hbase : (filepathBase appDir).data
        = (appDir.data.reverse.takeWhile (· ≠ '/')).reverse := by
      unfold filepathBase
      simp only [hne, if_false, hstrip, List.reverse_reverse, List.reverse_eq_nil_iff, htw]
    rw [hbase, ← List.reverse_append, List.takeWhile_append_dropWhile, List.reverse_reverse]
  · rcases hdw : appDir.data.reverse.dropWhile (· ≠ '/') with _ | ⟨x, xs⟩
    · exact Or.inl rfl
    · right
      have hhead := dropWhile_head_false (· ≠ '/') appDir.data.reverse x xs hdw
      have hx : x = '/' := by simpa using hhead
      rw [List.getLast?_eq_head?_reverse, List.reverse_reverse, List.head?_cons, hx]

/-- Claim C10, what the code does. For every `appDir` the compression tool is run once, as
`zip -9 -y -r <archive> <base>` in the directory `filepath.Dir(appDir)`, where `<base>` is
`filepath.Base(appDir)` and `<archive>` is the base name with its extension cut off and
`.zip` appended (`Foo.app` and `Foo` both give `Foo.zip`); on success the result is
`filepath.Dir(appDir)` joined with `<archive>`, on failure the error and an empty path. For
a path that does not end in a separator, `filepath.Dir(appDir)` is the cleaned part of the
path in front of the base name, the parent directory. For `dist/Foo.app/`, written with a
trailing separator, the base name is `Foo.app` but the working directory is `dist/Foo.app`,
the bundle itself, not its parent `dist`. -/
theorem C10_makeAppZip_call (w : World) (appDir : String) :
    (makeAppZip w appDir).2 =
      [.exec (filepathDir appDir)
        ["zip", "-9", "-y", "-r", zipFileName (filepathBase appDir), filepathBase appDir]] ∧
    (∃ nonExt : String, filepathBase appDir = nonExt ++ filepathExt (filepathBase appDir) ∧
      zipFileName (filepathBase appDir) = nonExt ++ ".zip") ∧
    (zipFileName "Foo.app" = "Foo.zip" ∧ zipFileName "Foo" = "Foo.zip") ∧
    (makeAppZip w appDir).1 =
      (match w.exec (filepathDir appDir)
        ["zip", "-9", "-y", "-r", zipFileName (filepathBase appDir), filepathBase appDir] with
      | some e => ("", some (.lib e))
      | none =>
        (filepathJoin (filepathDir appDir) (zipFileName (filepathBase appDir)), none)) ∧
    (appDir ≠ "" → appDir.data.getLast? ≠ some '/' →
      ∃ d : List Char, appDir.data = d ++ (filepathBase appDir).data ∧
        filepathDir appDir = filepathClean ⟨d⟩ ∧ (d = [] ∨ d.getLast? = some '/')) ∧
    (filepathDir "dist/Foo.app" = "dist" ∧ filepathBase "dist/Foo.app" = "Foo.app") ∧
    (filepathDir "dist/Foo.app/" = "dist/Foo.app" ∧ filepathBase "dist/Foo.app/" = "Foo.app" ∧
      (makeAppZip w "dist/Foo.app/").2 =
        [.exec "dist/Foo.app" ["zip", "-9", "-y", "-r", "Foo.zip", "Foo.app"]]) := by
  refine ⟨makeAppZip_trace w appDir, zipFileName_spec _, by decide, makeAppZip_fst w appDir,
    base_dir_split appDir, by decide, by decide, by decide, ?_⟩
  rw [makeAppZip_trace]
  decide

/-- Claim C10 at `dist/Foo.app`, a path without trailing separator: the directory the tool
runs in is the cleaned prefix `dist/` in front of the base name `Foo.app`. -/
theorem C10_makeAppZip_call_witness :
    ("dist/Foo.app" : String) ≠ "" ∧ ("dist/Foo.app" : String).data.getLast? ≠ some '/' ∧
    ∃ d : List Char, ("dist/Foo.app" : String).data = d ++ (filepathBase "dist/Foo.app").data ∧
      filepathDir "dist/Foo.app" = filepathClean ⟨d⟩ ∧ (d = [] ∨ d.getLast? = some '/') :=
  ⟨by decide, by decide,
    (C10_makeAppZip_call (demoWorld twoBundles none) "dist/Foo.app").2.2.2.2.1
      (by decide) (by decide)⟩

/-! ## Staple / verify / repackage: proofs -/

theorem isZip_exec_unzip (dir : String) (args : List String) :
    (Action.exec dir ("unzip" :: args)).isZip = false := by
  simp [Action.isZip]

theorem unzipPayload_trace (w : World) (payload outputDir : String) :
    ∀ a ∈ (unzipPayload w payload outputDir).2, a.isRename = false ∧ a.isZip = false := by
  have hscan := unzipScan_trace w outputDir
  have hstat : ∀ entries, ∀ a ∈ (unzipScan w outputDir entries).2,
      a.isRename = false ∧ a.isZip = false := by
    intro entries a ha
    obtain ⟨p, rfl⟩ := hscan entries a ha
    exact ⟨rfl, rfl⟩
  intro a ha
  unfold unzipPayload at ha
  cases habs : w.abs payload with
  | error e =>
    simp only [habs, List.mem_singleton] at ha
    subst ha
    exact ⟨rfl, rfl⟩
  | ok abs =>
    simp only [habs, runCommandOnDir, writeCommandOutputOnDir] at ha
    cases hrun : w.exec outputDir ["unzip", abs] with
    | some e =>
      simp only [hrun, Option.map_some', List.mem_cons, List.mem_singleton, List.not_mem_nil,
        or_false] at ha
      rcases ha with rfl | rfl
      · exact ⟨rfl, rfl⟩
      · exact ⟨rfl, isZip_exec_unzip _ _⟩
    | none =>
      simp only [hrun, Option.map_none'] at ha
      cases hdir : w.readDir outputDir with
      | error e =>
        simp only [hdir, List.cons_append, List.nil_append, List.mem_cons, List.mem_singleton,
          List.not_mem_nil, or_false] at ha
        rcases ha with rfl | rfl | rfl
        · exact ⟨rfl, rfl⟩
        · exact ⟨rfl, isZip_exec_unzip _ _⟩
        · exact ⟨rfl, rfl⟩
      | ok entries =>
        simp only [hdir] at ha
        have key : ∀ r : (String × Bool × Option Err),
            a ∈ (r, Action.abs payload :: [Action.exec outputDir ["unzip", abs]] ++
              [Action.readDir outputDir] ++ (unzipScan w outputDir entries).2).2 →
            a.isRename = false ∧ a.isZip = false := by
          intro r hr
          simp only [List.cons_append, List.nil_append, List.mem_cons] at hr
          rcases hr with rfl | rfl | rfl | hr
          · exact ⟨rfl, rfl⟩
          · exact ⟨rfl, isZip_exec_unzip _ _⟩
          · exact ⟨rfl, rfl⟩
          · exact hstat entries a hr
        rcases hres : unzipScan w outputDir entries with ⟨o, t2⟩
        rw [hres] at ha key
        cases o with
        | some fullPath => exact key _ ha
        | none =>
          simp only [] at ha
          split at ha
          · split at ha
            · exact key _ ha
            · exact key _ ha
          · exact key _ ha

/-- The runs of `stapleAndVerifyBody`, one disjunct per exit: extraction failed; the staple
tool failed; verification failed; verified bare executable; recompression failed; renamed
(with the result of the rename). -/
theorem stapleAndVerifyBody_runs (w : World) (zipFile dir : String) :
    ∃ p canStaple e t1, unzipPayload w zipFile dir = ((p, canStaple, e), t1) ∧
      ((∃ err, e = some err ∧ stapleAndVerifyBody w zipFile dir = (some err, t1)) ∨
       (e = none ∧ canStaple = true ∧
          ∃ err, w.exec "" ["xcrun", "stapler", "staple", p] = some err ∧
            stapleAndVerifyBody w zipFile dir
              = (some (.lib err), t1 ++ [.exec "" ["xcrun", "stapler", "staple", p]])) ∨
       (e = none ∧ canStaple = true ∧ w.exec "" ["xcrun", "stapler", "staple", p] = none ∧
          ∃ err, w.verifySignature p = some err ∧
            stapleAndVerifyBody w zipFile dir
              = (some (.lib err),
                  t1 ++ [.exec "" ["xcrun", "stapler", "staple", p]] ++ [.verifySignature p])) ∨
       (e = none ∧ canStaple = false ∧
          ∃ err, w.verifySignature p = some err ∧
            stapleAndVerifyBody w zipFile dir
              = (some (.lib err), t1 ++ [] ++ [.verifySignature p])) ∨
       (e = none ∧ canStaple = false ∧ w.verifySignature p = none ∧
          stapleAndVerifyBody w zipFile dir = (none, t1 ++ [] ++ [.verifySignature p])) ∨
       (e = none ∧ canStaple = true ∧ w.exec "" ["xcrun", "stapler", "staple", p] = none ∧
          w.verifySignature p = none ∧
          ∃ path err, (makeAppZip w p).1 = (path, some err) ∧
            stapleAndVerifyBody w zipFile dir
              = (some err,
                  t1 ++ [.exec "" ["xcrun", "stapler", "staple", p]] ++ [.verifySignature p]
                    ++ (makeAppZip w p).2)) ∨
       (e = none ∧ canStaple = true ∧ w.exec "" ["xcrun", "stapler", "staple", p] = none ∧
          w.verifySignature p = none ∧
          ∃ newZipPath, (makeAppZip w p).1 = (newZipPath, none) ∧
            stapleAndVerifyBody w zipFile dir
              = ((w.rename newZipPath zipFile).map Err.lib,
                  t1 ++ [.exec "" ["xcrun", "stapler", "staple", p]] ++ [.verifySignature p]
                    ++ (makeAppZip w p).2 ++ [.rename newZipPath zipFile]))) := by
  rcases hu : unzipPayload w zipFile dir with ⟨⟨p, canStaple, e⟩, t1⟩
  refine ⟨p, canStaple, e, t1, rfl, ?_⟩
  unfold stapleAndVerifyBody
  rw [hu]
  cases e with
  | some err => exact Or.inl ⟨err, rfl, rfl⟩
  | none =>
    right
    cases canStaple with
    | false =>
      right; right
      cases hv : w.verifySignature p with
      | some err =>
        left
        simp [hv]
      | none =>
        right; left
        simp [hv]
    | true =>
      cases hs : w.exec "" ["xcrun", "stapler", "staple", p] with
      | some err =>
        left
        simp [runCommand, runCommandOnDir, writeCommandOutputOnDir, hs]
      | none =>
        right
        cases hv : w.verifySignature p with
        | some err =>
          left
          simp [runCommand, runCommandOnDir, writeCommandOutputOnDir, hs, hv]
        | none =>
          right; right; right
          rcases hz : makeAppZip w p with ⟨⟨path, ze⟩, t3⟩
          cases ze with
          | some err =>
            left
            simp [runCommand, runCommandOnDir, writeCommandOutputOnDir, hs, hv, hz]
          | none =>
            right
            cases hr : w.rename path zipFile with
            | some err =>
              simp [runCommand, runCommandOnDir, writeCommandOutputOnDir, hs, hv, hz, hr]
            | none =>
              simp [runCommand, runCommandOnDir, writeCommandOutputOnDir, hs, hv, hz, hr]

theorem rename_not_mem (t : List Action)
    (h : ∀ a ∈ t, a.isRename = false ∧ a.isZip = false) (src dst : String) :
    Action.rename src dst ∉ t := by
  intro hm
  have := (h _ hm).1
  simp [Action.isRename] at this

theorem unzipScan_trace_mem (w : World) (outputDir : String) (entries : List FileInfo) :
    ∀ a ∈ (unzipScan w outputDir entries).2,
      ∃ v ∈ entries, a = Action.stat (filepathJoin outputDir v.Name) := by
  induction entries with
  | nil => intro a ha; simp [unzipScan] at ha
  | cons v rest ih =>
    have hrest : ∀ a ∈ (unzipScan w outputDir rest).2,
        ∃ u ∈ v :: rest, a = Action.stat (filepathJoin outputDir u.Name) := by
      intro a ha
      obtain ⟨u, hu, hau⟩ := ih a ha
      exact ⟨u, List.mem_cons_of_mem _ hu, hau⟩
    intro a ha
    unfold unzipScan at ha
    simp only [] at ha
    split at ha
    · split at ha
      · split at ha
        · simp only [List.mem_singleton] at ha
          exact ⟨v, List.mem_cons_self _ _, ha⟩
        · rcases List.mem_cons.1 ha with h | h
          · exact ⟨v, List.mem_cons_self _ _, h⟩
          · exact hrest a h
      · rcases List.mem_cons.1 ha with h | h
        · exact ⟨v, List.mem_cons_self _ _, h⟩
        · exact hrest a h
    · exact hrest a ha

/-- Every action of `unzipPayload`: resolving the archive path, the `unzip` run inside the
output directory on the resolved path, listing the output directory, and `os.Stat` of
listed children of the output directory. -/
theorem unzipPayload_trace_shape (w : World) (payload outputDir : String) :
    ∀ a ∈ (unzipPayload w payload outputDir).2,
      a = Action.abs payload ∨
      (∃ abs, w.abs payload = .ok abs ∧ a = Action.exec outputDir ["unzip", abs]) ∨
      a = Action.readDir outputDir ∨
      (∃ entries v, w.readDir outputDir = .ok entries ∧ v ∈ entries ∧
        a = Action.stat (filepathJoin outputDir v.Name)) := by
  intro a ha
  unfold unzipPayload at ha
  cases habs : w.abs payload with
  | error e =>
    simp only [habs, List.mem_singleton] at ha
    exact Or.inl ha
  | ok abs =>
    simp only [habs, runCommandOnDir, writeCommandOutputOnDir] at ha
    cases hrun : w.exec outputDir ["unzip", abs] with
    | some e =>
      simp only [hrun, Option.map_some', List.mem_cons, List.mem_singleton, List.not_mem_nil,
        or_false] at ha
      rcases ha with h | h
      · exact Or.inl h
      · exact Or.inr (Or.inl ⟨abs, rfl, h⟩)
    | none =>
      simp only [hrun, Option.map_none'] at ha
      cases hdir : w.readDir outputDir with
      | error e =>
        simp only [hdir, List.cons_append, List.nil_append, List.mem_cons, List.mem_singleton,
          List.not_mem_nil, or_false] at ha
        rcases ha with h | h | h
        · exact Or.inl h
        · exact Or.inr (Or.inl ⟨abs, rfl, h⟩)
        · exact Or.inr (Or.inr (Or.inl h))
      | ok entries =>
        simp only [hdir] at ha
        have hscan := unzipScan_trace_mem w outputDir entries
        have key : ∀ r : (String × Bool × Option Err),
            a ∈ (r, Action.abs payload :: [Action.exec outputDir ["unzip", abs]] ++
              [Action.readDir outputDir] ++ (unzipScan w outputDir entries).2).2 →
            (a = Action.abs payload ∨
              (∃ abs1, Except.ok abs = Except.ok (ε := LibErr) abs1 ∧
                a = Action.exec outputDir ["unzip", abs1]) ∨
              a = Action.readDir outputDir ∨
              (∃ entries1 v, Except.ok entries = Except.ok (ε := LibErr) entries1 ∧
                v ∈ entries1 ∧ a = Action.stat (filepathJoin outputDir v.Name))) := by
          intro r hr
          simp only [List.cons_append, List.nil_append, List.mem_cons] at hr
          rcases hr with h | h | h | h
          · exact Or.inl h
          · exact Or.inr (Or.inl ⟨abs, rfl, h⟩)
          · exact Or.inr (Or.inr (Or.inl h))
          · obtain ⟨v, hv, hav⟩ := hscan a h
            exact Or.inr (Or.inr (Or.inr ⟨entries, v, rfl, hv, hav⟩))
        rcases hres : unzipScan w outputDir entries with ⟨o, t2⟩
        rw [hres] at ha key
        cases o with
        | some fullPath => exact key _ ha
        | none =>
          simp only [] at ha
          split at ha
          · split at ha
            · exact key _ ha
            · exact key _ ha
          · exact key _ ha

/-- The path `unzipPayload` returns on success is a listed child of the output directory,
joined to it. -/
theorem unzipPayload_ok_path (w : World) (payload outputDir p : String) (canStaple : Bool)
    (h : (unzipPayload w payload outputDir).1 = (p, canStaple, none)) :
    ∃ entries v, w.readDir outputDir = .ok entries ∧ v ∈ entries ∧
      p = filepathJoin outputDir v.Name := by
  obtain ⟨abs, entries, habs, hrun, hdir⟩ := unzipPayload_ok_inv w payload outputDir p canStaple h
  have hl := unzipPayload_listing w payload outputDir abs entries habs hrun hdir
  rw [h] at hl
  cases hfind : entries.find? (isAppDir w outputDir) with
  | some v =>
    rw [hfind] at hl
    simp only [Prod.mk.injEq] at hl
    exact ⟨entries, v, hdir, List.mem_of_find?_eq_some hfind, hl.1⟩
  | none =>
    rw [hfind] at hl
    rcases entries with _ | ⟨e0, _ | ⟨e1, rest⟩⟩
    · simp at hl
    · simp only [] at hl
      by_cases hx : filepathExt e0.Name = "" ∧ w.isExecutable e0 = true
      · simp only [hx, and_self, if_true, Prod.mk.injEq] at hl
        exact ⟨[e0], e0, hdir, List.mem_singleton_self _, hl.1⟩
      · simp [hx] at hl
    · simp at hl

/-- Claim C2: in the trace of `stapleAndVerify`, for every combination of outcomes of the
collaborators, (1) an `os.Rename` occurs only if the temporary directory was created, the
extraction returned a staple-eligible bundle, the staple tool, `verifySignature` and
`makeAppZip` succeeded; its target is then the original archive path, its source the path
`makeAppZip` returned, and it is the last action before the `os.RemoveAll` of the scratch
directory, with no other rename before it; (2) whenever extraction, stapling or verification
fails, or the payload is a bare executable, the trace contains no rename and no run of the
compression tool; (3) when the temporary directory cannot be created nothing else is done;
(4) when all steps up to `makeAppZip` succeed the rename over the original path is made and
its result is the result of the run; (5) on every other exit the result and the whole trace
are fixed: creation of the scratch directory, the extraction, then, as far as the run gets,
the staple tool on the extracted path, the verifier on the extracted path, the compression
of the extracted path, and last the removal of the scratch directory, nothing else; (6) the
extraction itself only resolves the archive path, runs `unzip` inside the scratch directory
with the resolved path as its source, lists the scratch directory and stats listed children
of it, and the extracted path is a listed child of the scratch directory. So apart from the
rename of (1), the original path is only read: it is the argument of `filepath.Abs` and the
source of `unzip`, and every other action is on the scratch directory or on a path joined
to it. -/
theorem C2_rename_only_after_verification (w : World) (zipFile : String) :
    (∀ src dst, Action.rename src dst ∈ (stapleAndVerify w zipFile).2 →
      ∃ dir p, w.tempDir "" "notarizer" = .ok dir ∧
        (unzipPayload w zipFile dir).1 = (p, true, none) ∧
        w.exec "" ["xcrun", "stapler", "staple", p] = none ∧ w.verifySignature p = none ∧
        (makeAppZip w p).1 = (src, none) ∧ dst = zipFile ∧
        ∃ pre, (stapleAndVerify w zipFile).2
            = pre ++ [.rename src zipFile, .removeAll dir] ∧
          ∀ a ∈ pre, a.isRename = false) ∧
    (∀ dir, w.tempDir "" "notarizer" = .ok dir →
      ((unzipPayload w zipFile dir).1.2.2 ≠ none ∨ (unzipPayload w zipFile dir).1.2.1 = false ∨
        w.exec "" ["xcrun", "stapler", "staple", (unzipPayload w zipFile dir).1.1] ≠ none ∨
        w.verifySignature (unzipPayload w zipFile dir).1.1 ≠ none) →
      ∀ a ∈ (stapleAndVerify w zipFile).2, a.isRename = false ∧ a.isZip = false) ∧
    (∀ e, w.tempDir "" "notarizer" = .error e →
      stapleAndVerify w zipFile = (some (.lib e), [.tempDir "" "notarizer"])) ∧
    (∀ dir p newZipPath, w.tempDir "" "notarizer" = .ok dir →
      (unzipPayload w zipFile dir).1 = (p, true, none) →
      w.exec "" ["xcrun", "stapler", "staple", p] = none → w.verifySignature p = none →
      (makeAppZip w p).1 = (newZipPath, none) →
      stapleAndVerify w zipFile =
        ((w.rename newZipPath zipFile).map Err.lib,
          .tempDir "" "notarizer" :: (unzipPayload w zipFile dir).2
            ++ [.exec "" ["xcrun", "stapler", "staple", p]] ++ [.verifySignature p]
            ++ (makeAppZip w p).2 ++ [.rename newZipPath zipFile] ++ [.removeAll dir])) ∧
    (∀ dir, w.tempDir "" "notarizer" = .ok dir →
      (∀ path c err, (unzipPayload w zipFile dir).1 = (path, c, some err) →
        stapleAndVerify w zipFile =
          (some err,
            .tempDir "" "notarizer" :: (unzipPayload w zipFile dir).2 ++ [.removeAll dir])) ∧
      (∀ p err, (unzipPayload w zipFile dir).1 = (p, true, none) →
        w.exec "" ["xcrun", "stapler", "staple", p] = some err →
        stapleAndVerify w zipFile =
          (some (.lib err),
            .tempDir "" "notarizer" :: (unzipPayload w zipFile dir).2
              ++ [.exec "" ["xcrun", "stapler", "staple", p], .removeAll dir])) ∧
      (∀ p err, (unzipPayload w zipFile dir).1 = (p, true, none) →
        w.exec "" ["xcrun", "stapler", "staple", p] = none →
        w.verifySignature p = some err →
        stapleAndVerify w zipFile =
          (some (.lib err),
            .tempDir "" "notarizer" :: (unzipPayload w zipFile dir).2
              ++ [.exec "" ["xcrun", "stapler", "staple", p], .verifySignature p,
                  .removeAll dir])) ∧
      (∀ p, (unzipPayload w zipFile dir).1 = (p, false, none) →
        stapleAndVerify w zipFile =
          ((w.verifySignature p).map Err.lib,
            .tempDir "" "notarizer" :: (unzipPayload w zipFile dir).2
              ++ [.verifySignature p, .removeAll dir])) ∧
      (∀ p path err, (unzipPayload w zipFile dir).1 = (p, true, none) →
        w.exec "" ["xcrun", "stapler", "staple", p] = none → w.verifySignature p = none →
        (makeAppZip w p).1 = (path, some err) →
        stapleAndVerify w zipFile =
          (some err,
            .tempDir "" "notarizer" :: (unzipPayload w zipFile dir).2
              ++ [.exec "" ["xcrun", "stapler", "staple", p], .verifySignature p]
              ++ [.exec (filepathDir p)
                    ["zip", "-9", "-y", "-r", zipFileName (filepathBase p), filepathBase p],
                  .removeAll dir]))) ∧
    (∀ dir,
      (∀ a ∈ (unzipPayload w zipFile dir).2,
        a = Action.abs zipFile ∨
        (∃ abs, w.abs zipFile = .ok abs ∧ a = Action.exec dir ["unzip", abs]) ∨
        a = Action.readDir dir ∨
        (∃ entries v, w.readDir dir = .ok entries ∧ v ∈ entries ∧
          a = Action.stat (filepathJoin dir v.Name))) ∧
      (∀ p c, (unzipPayload w zipFile dir).1 = (p, c, none) →
        ∃ entries v, w.readDir dir = .ok entries ∧ v ∈ entries ∧
          p = filepathJoin dir v.Name)) := by
  refine ⟨?_, ?_, ?_, ?_, ?_, ?_⟩
  · intro src dst hmem
    cases htd : w.tempDir "" "notarizer" with
    | error e => simp [stapleAndVerify, htd] at hmem
    | ok dir =>
      simp only [stapleAndVerify, htd] at hmem ⊢
      have ht := unzipPayload_trace w zipFile dir
      have hz : ∀ q, ∀ a ∈ (makeAppZip w q).2, a.isRename = false := by
        intro q a ha
        rw [makeAppZip_trace, List.mem_singleton] at ha
        subst ha
        rfl
      obtain ⟨p, canStaple, e, t1, hu, hrun⟩ := stapleAndVerifyBody_runs w zipFile dir
      rw [hu] at ht
      simp only [] at ht
      have hnr := rename_not_mem t1 ht src dst
      rcases hrun with ⟨err, -, hb⟩ | ⟨-, -, err, -, hb⟩ | ⟨-, -, -, err, -, hb⟩ |
        ⟨-, -, err, -, hb⟩ | ⟨-, -, -, hb⟩ | ⟨-, -, -, -, path, err, -, hb⟩ |
        ⟨he, hc, hs, hv, newZipPath, hzip, hb⟩
      · rw [hb] at hmem
        simp [hnr] at hmem
      · rw [hb] at hmem
        simp [hnr] at hmem
      · rw [hb] at hmem
        simp [hnr] at hmem
      · rw [hb] at hmem
        simp [hnr] at hmem
      · rw [hb] at hmem
        simp [hnr] at hmem
      · rw [hb] at hmem
        have hnz : Action.rename src dst ∉ (makeAppZip w p).2 := by
          intro hm
          have := hz p _ hm
          simp [Action.isRename] at this
        simp [hnr, hnz] at hmem
      · rw [hb] at hmem ⊢
        have hnz : Action.rename src dst ∉ (makeAppZip w p).2 := by
          intro hm
          have := hz p _ hm
          simp [Action.isRename] at this
        simp only [List.mem_cons, List.mem_append, List.mem_singleton, hnr, hnz, false_or,
          or_false, Action.rename.injEq, List.not_mem_nil, reduceCtorEq] at hmem
        obtain ⟨rfl, rfl⟩ := hmem
        subst he hc
        refine ⟨dir, p, rfl, by rw [hu], hs, hv, hzip, rfl,
          .tempDir "" "notarizer" :: (t1 ++ [.exec "" ["xcrun", "stapler", "staple", p]]
            ++ [.verifySignature p] ++ (makeAppZip w p).2), by simp, ?_⟩
        intro a ha
        simp only [List.mem_cons, List.mem_append, List.mem_singleton, List.not_mem_nil,
          or_false, or_assoc] at ha
        rcases ha with rfl | ha | rfl | rfl | ha
        all_goals first
          | rfl
          | exact (ht _ ha).1
          | exact hz _ _ ha
  · intro dir htd hfail a ha
    simp only [stapleAndVerify, htd] at ha
    have ht := unzipPayload_trace w zipFile dir
    obtain ⟨p, canStaple, e, t1, hu, hrun⟩ := stapleAndVerifyBody_runs w zipFile dir
    rw [hu] at ht hfail
    simp only [] at ht hfail
    rcases hrun with ⟨err, -, hb⟩ | ⟨-, -, err, -, hb⟩ | ⟨-, -, -, err, -, hb⟩ |
      ⟨-, -, err, -, hb⟩ | ⟨-, -, -, hb⟩ | ⟨he, hc, hs, hv, -⟩ | ⟨he, hc, hs, hv, -⟩
    · rw [hb] at ha
      simp only [List.mem_cons, List.mem_append, List.mem_singleton, List.not_mem_nil,
        or_false, or_assoc] at ha
      rcases ha with rfl | ha | rfl
      all_goals first
        | exact ht a ha
        | exact ⟨rfl, rfl⟩
    · rw [hb] at ha
      simp only [List.mem_cons, List.mem_append, List.mem_singleton, List.not_mem_nil,
        or_false, or_assoc] at ha
      rcases ha with rfl | ha | rfl | rfl
      all_goals first
        | exact ht a ha
        | exact ⟨rfl, rfl⟩
    · rw [hb] at ha
      simp only [List.mem_cons, List.mem_append, List.mem_singleton, List.not_mem_nil,
        or_false, or_assoc] at ha
      rcases ha with rfl | ha | rfl | rfl | rfl
      all_goals first
        | exact ht a ha
        | exact ⟨rfl, rfl⟩
    · rw [hb] at ha
      simp only [List.mem_cons, List.mem_append, List.mem_singleton, List.not_mem_nil,
        or_false, false_or, or_assoc] at ha
      rcases ha with rfl | ha | rfl | rfl
      all_goals first
        | exact ht a ha
        | exact ⟨rfl, rfl⟩
    · rw [hb] at ha
      simp only [List.mem_cons, List.mem_append, List.mem_singleton, List.not_mem_nil,
        or_false, false_or, or_assoc] at ha
      rcases ha with rfl | ha | rfl | rfl
      all_goals first
        | exact ht a ha
        | exact ⟨rfl, rfl⟩
    · subst he hc
      simp [hs, hv] at hfail
    · subst he hc
      simp [hs, hv] at hfail
  · intro e htd
    simp [stapleAndVerify, htd]
  · intro dir p newZipPath htd hup hs hv hzip
    simp only [stapleAndVerify, htd]
    obtain ⟨p1, canStaple, e, t1, hu, hrun⟩ := stapleAndVerifyBody_runs w zipFile dir
    rw [hu] at hup ⊢
    simp only [Prod.mk.injEq] at hup
    obtain ⟨rfl, rfl, rfl⟩ := hup
    rcases hrun with ⟨err, he, -⟩ | ⟨-, -, err, hs1, -⟩ | ⟨-, -, -, err, hv1, -⟩ |
      ⟨-, hc, -⟩ | ⟨-, hc, -⟩ | ⟨-, -, -, -, path, err, hz1, -⟩ |
      ⟨-, -, -, -, newZip1, hz1, hb⟩
    · cases he
    · rw [hs] at hs1; cases hs1
    · rw [hv] at hv1; cases hv1
    · cases hc
    · cases hc
    · rw [hzip] at hz1; simp at hz1
    · rw [hzip] at hz1
      simp only [Prod.mk.injEq, and_true] at hz1
      subst hz1
      rw [hb]
      simp
  · intro dir htd
    refine ⟨?_, ?_, ?_, ?_, ?_⟩
    · intro path c err hup
      rcases hu : unzipPayload w zipFile dir with ⟨⟨p1, c1, e1⟩, t1⟩
      rw [hu] at hup
      simp only [Prod.mk.injEq] at hup
      obtain ⟨rfl, rfl, rfl⟩ := hup
      simp [stapleAndVerify, htd, stapleAndVerifyBody, hu]
    · intro p err hup hs
      rcases hu : unzipPayload w zipFile dir with ⟨⟨p1, c1, e1⟩, t1⟩
      rw [hu] at hup
      simp only [Prod.mk.injEq] at hup
      obtain ⟨rfl, rfl, rfl⟩ := hup
      simp [stapleAndVerify, htd, stapleAndVerifyBody, hu, runCommand, runCommandOnDir,
        writeCommandOutputOnDir, hs]
    · intro p err hup hs hv
      rcases hu : unzipPayload w zipFile dir with ⟨⟨p1, c1, e1⟩, t1⟩
      rw [hu] at hup
      simp only [Prod.mk.injEq] at hup
      obtain ⟨rfl, rfl, rfl⟩ := hup
      simp [stapleAndVerify, htd, stapleAndVerifyBody, hu, runCommand, runCommandOnDir,
        writeCommandOutputOnDir, hs, hv]
    · intro p hup
      rcases hu : unzipPayload w zipFile dir with ⟨⟨p1, c1, e1⟩, t1⟩
      rw [hu] at hup
      simp only [Prod.mk.injEq] at hup
      obtain ⟨rfl, rfl, rfl⟩ := hup
      cases hv : w.verifySignature p1 <;>
        simp [stapleAndVerify, htd, stapleAndVerifyBody, hu, hv]
    · intro p path err hup hs hv hzip
      rcases hu : unzipPayload w zipFile dir with ⟨⟨p1, c1, e1⟩, t1⟩
      rw [hu] at hup
      simp only [Prod.mk.injEq] at hup
      obtain ⟨rfl, rfl, rfl⟩ := hup
      have htr := makeAppZip_trace w p1
      rcases hz : makeAppZip w p1 with ⟨⟨path1, ze⟩, t3⟩
      rw [hz] at hzip htr
      simp only [Prod.mk.injEq] at hzip
      obtain ⟨rfl, rfl⟩ := hzip
      simp only [] at htr
      subst htr
      simp [stapleAndVerify, htd, stapleAndVerifyBody, hu, runCommand, runCommandOnDir,
        writeCommandOutputOnDir, hs, hv, hz]
  · intro dir
    exact ⟨unzipPayload_trace_shape w zipFile dir,
      fun p c h => unzipPayload_ok_path w zipFile dir p c h⟩

/-- Claim C2 at the archive `App.zip` holding `A.app` and `B.app`. With a verifier that
rejects, the run ends after the verifier with the scratch directory removed and nothing else
done. With every tool and the verifier succeeding, the rename occurs, so the conditions hold
and it is followed only by the removal of the scratch directory. -/
theorem C2_rename_only_after_verification_witness :
    stapleAndVerify (demoWorld twoBundles (some (.other "rejected"))) "App.zip"
      = (some (.lib (.other "rejected")),
          [.tempDir "" "notarizer", .abs "App.zip",
            .exec "/tmp/notarizer1" ["unzip", "/work/App.zip"], .readDir "/tmp/notarizer1",
            .stat "/tmp/notarizer1/A.app",
            .exec "" ["xcrun", "stapler", "staple", "/tmp/notarizer1/A.app"],
            .verifySignature "/tmp/notarizer1/A.app", .removeAll "/tmp/notarizer1"]) ∧
    stapleAndVerify (demoWorld twoBundles (some (.other "rejected"))) "App.zip"
      = (some (.lib (.other "rejected")),
          .tempDir "" "notarizer" ::
            (unzipPayload (demoWorld twoBundles (some (.other "rejected"))) "App.zip"
              "/tmp/notarizer1").2
            ++ [.exec "" ["xcrun", "stapler", "staple", "/tmp/notarizer1/A.app"],
                .verifySignature "/tmp/notarizer1/A.app", .removeAll "/tmp/notarizer1"]) ∧
    Action.rename "/tmp/notarizer1/A.zip" "App.zip"
      ∈ (stapleAndVerify (demoWorld twoBundles none) "App.zip").2 ∧
    ∃ dir p, (demoWorld twoBundles none).tempDir "" "notarizer" = .ok dir ∧
      (unzipPayload (demoWorld twoBundles none) "App.zip" dir).1 = (p, true, none) ∧
      (demoWorld twoBundles none).exec "" ["xcrun", "stapler", "staple", p] = none ∧
      (demoWorld twoBundles none).verifySignature p = none ∧
      (makeAppZip (demoWorld twoBundles none) p).1 = ("/tmp/notarizer1/A.zip", none) ∧
      "App.zip" = "App.zip" ∧
      ∃ pre, (stapleAndVerify (demoWorld twoBundles none) "App.zip").2
          = pre ++ [.rename "/tmp/notarizer1/A.zip" "App.zip", .removeAll dir] ∧
        ∀ a ∈ pre, a.isRename = false :=
  ⟨by decide,
    ((C2_rename_only_after_verification (demoWorld twoBundles (some (.other "rejected")))
      "App.zip").2.2.2.2.1 "/tmp/notarizer1" rfl).2.2.1
      "/tmp/notarizer1/A.app" (.other "rejected") (by decide) rfl rfl,
    by decide,
    (C2_rename_only_after_verification (demoWorld twoBundles none) "App.zip").1
      "/tmp/notarizer1/A.zip" "App.zip" (by decide)⟩

/-- Claim C1, the code at the failing input. `staplePayload` returns `nil` whatever
`stapleAndVerify` returns. For the request `App.zip` with a verifier that always fails,
`stapleAndVerify` returns the verifier error and leaves the archive alone (no rename), but
`stapleFile` returns `nil` and `Execute` returns `ExitSuccess`, printing no error. -/
theorem C1_pipeline_error_dropped :
    (∀ w req, (staplePayload w req).1 = none) ∧
    (∀ w req, filepathExt req.AppPath = ".zip" → (stapleFile w req).1 = none) ∧
    (stapleAndVerify (demoWorld twoBundles (some (.other "rejected"))) "App.zip").1
      = some (.lib (.other "rejected")) ∧
    (∀ a ∈ (stapleAndVerify (demoWorld twoBundles (some (.other "rejected"))) "App.zip").2,
      a.isRename = false) ∧
    (stapleFile (demoWorld twoBundles (some (.other "rejected"))) ⟨"App.zip"⟩).1 = none ∧
    Execute (demoWorld twoBundles (some (.other "rejected"))) ["App.zip"]
      = (.ExitSuccess,
          (stapleAndVerify (demoWorld twoBundles (some (.other "rejected"))) "App.zip").2) := by
  refine ⟨fun _ _ => rfl, ?_, by decide, by decide, by decide, by decide⟩
  intro w req hext
  simp [stapleFile, hext, staplePayload]

/-- Claim C1 at the request `App.zip`: the extension is `.zip`, and `stapleFile` returns
`nil` although the verifier rejects the bundle. -/
theorem C1_pipeline_error_dropped_witness :
    filepathExt "App.zip" = ".zip" ∧
    (stapleFile (demoWorld twoBundles (some (.other "rejected"))) ⟨"App.zip"⟩).1 = none :=
  ⟨by decide,
    C1_pipeline_error_dropped.2.1 (demoWorld twoBundles (some (.other "rejected"))) ⟨"App.zip"⟩
      (by decide)⟩

/-- Claim C8: `stapleFile` fails with the unsupported-format error exactly when the extension
of the request path is none of `.zip`, `.app` and the empty string, and then nothing at all
is run or touched (empty trace). A `.zip` path goes to `staplePayload`, and through it to
`stapleAndVerify`, unchanged and without compression step; for `.app` and for no extension
`makeAppZip` runs first, its error is returned when it fails, and otherwise
`stapleAndVerify` receives the path `makeAppZip` returned. -/
theorem C8_stapleFile_dispatch (w : World) (req : stapleRequest) :
    ((stapleFile w req).1 = some (.cantStaple (filepathExt req.AppPath))
      ↔ (filepathExt req.AppPath ≠ ".zip" ∧ filepathExt req.AppPath ≠ ".app" ∧
          filepathExt req.AppPath ≠ "")) ∧
    ((filepathExt req.AppPath ≠ ".zip" ∧ filepathExt req.AppPath ≠ ".app" ∧
        filepathExt req.AppPath ≠ "") →
      stapleFile w req = (some (.cantStaple (filepathExt req.AppPath)), [])) ∧
    (filepathExt req.AppPath = ".zip" →
      stapleFile w req = staplePayload w req ∧
      (stapleFile w req).2 = (stapleAndVerify w req.AppPath).2) ∧
    ((filepathExt req.AppPath = ".app" ∨ filepathExt req.AppPath = "") →
      (∀ path err, (makeAppZip w req.AppPath).1 = (path, some err) →
        stapleFile w req = (some err, (makeAppZip w req.AppPath).2)) ∧
      (∀ appZip, (makeAppZip w req.AppPath).1 = (appZip, none) →
        stapleFile w req
          = ((staplePayload w ⟨appZip⟩).1,
              (makeAppZip w req.AppPath).2 ++ (stapleAndVerify w appZip).2))) := by
  have hzipapp : (".zip" : String) ≠ ".app" := by decide
  have hzipnil : (".zip" : String) ≠ "" := by decide
  refine ⟨?_, ?_, ?_, ?_⟩
  · by_cases h1 : filepathExt req.AppPath = ".zip"
    · simp [stapleFile, h1, staplePayload]
    · by_cases h2 : filepathExt req.AppPath = ".app" ∨ filepathExt req.AppPath = ""
      · have hne : ¬ (filepathExt req.AppPath ≠ ".zip" ∧ filepathExt req.AppPath ≠ ".app" ∧
            filepathExt req.AppPath ≠ "") := by
          rintro ⟨-, h3, h4⟩
          rcases h2 with h2 | h2
          · exact h3 h2
          · exact h4 h2
        simp only [hne, iff_false]
        have hfst := makeAppZip_fst w req.AppPath
        rcases hz : makeAppZip w req.AppPath with ⟨⟨path, ze⟩, t⟩
        rw [hz] at hfst
        simp only [stapleFile, h1, h2, if_true, if_false, hz]
        cases ze with
        | none => simp [staplePayload]
        | some err =>
          simp only []
          intro hcontra
          simp only [Option.some.injEq] at hcontra
          subst hcontra
          revert hfst
          cases w.exec (filepathDir req.AppPath)
            ["zip", "-9", "-y", "-r", zipFileName (filepathBase req.AppPath),
              filepathBase req.AppPath] <;> simp
      · have h3 : filepathExt req.AppPath ≠ ".app" := fun h => h2 (Or.inl h)
        have h4 : filepathExt req.AppPath ≠ "" := fun h => h2 (Or.inr h)
        simp [stapleFile, h1, h2, h3, h4]
  · rintro ⟨h1, h3, h4⟩
    simp [stapleFile, h1, h3, h4]
  · intro h1
    simp [stapleFile, h1, staplePayload]
  · intro h2
    have h1 : filepathExt req.AppPath ≠ ".zip" := by
      rcases h2 with h2 | h2 <;> rw [h2] <;> [exact hzipapp.symm; exact hzipnil.symm]
    refine ⟨?_, ?_⟩
    · intro path err hz
      rcases hz1 : makeAppZip w req.AppPath with ⟨⟨path1, ze⟩, t⟩
      rw [hz1] at hz
      simp only [Prod.mk.injEq] at hz
      obtain ⟨rfl, rfl⟩ := hz
      simp [stapleFile, h1, h2, hz1]
    · intro appZip hz
      rcases hz1 : makeAppZip w req.AppPath with ⟨⟨path1, ze⟩, t⟩
      rw [hz1] at hz
      simp only [Prod.mk.injEq] at hz
      obtain ⟨rfl, rfl⟩ := hz
      simp [stapleFile, h1, h2, hz1, staplePayload]

/-- Claim C8 at the request `App.dmg`: the extension is unsupported, the error names it, and
nothing is run. -/
theorem C8_stapleFile_dispatch_witness :
    (filepathExt "App.dmg" ≠ ".zip" ∧ filepathExt "App.dmg" ≠ ".app" ∧
      filepathExt "App.dmg" ≠ "") ∧
    stapleFile (demoWorld twoBundles none) ⟨"App.dmg"⟩
      = (some (.cantStaple (filepathExt "App.dmg")), []) :=
  ⟨by decide,
    (C8_stapleFile_dispatch (demoWorld twoBundles none) ⟨"App.dmg"⟩).2.1 (by decide)⟩

/-! ## Bundle identity resolver: proofs -/

theorem goIndex_append {α : Type} (pre rest : List α) (f : α) :
    goIndex (pre ++ f :: rest) (pre.length : Int) = .returns f := by
  apply goIndex_natCast
  induction pre with
  | nil => rfl
  | cons x pre ih => simpa using ih

theorem Next_at (pre rest : List zipFile) (f : zipFile) :
    (⟨pre ++ f :: rest, (pre.length : Int) - 1⟩ : zipPayloadReader).Next
      = (.returns (f.Name, none), ⟨pre ++ f :: rest, (pre.length : Int)⟩) := by
  have hpos : ((pre.length : Int) - 1 + 1) = (pre.length : Int) := by ring
  have hlt : ¬ ((pre.length : Int) ≥ ((pre ++ f :: rest).length : Int)) := by
    simp only [List.length_append, List.length_cons]
    push_cast
    omega
  simp only [zipPayloadReader.Next, hpos, hlt, if_false, goIndex_append]

theorem Next_end (zr : List zipFile) :
    (⟨zr, (zr.length : Int) - 1⟩ : zipPayloadReader).Next
      = (.returns ("", some ioEOF), ⟨zr, (zr.length : Int)⟩) := by
  have hpos : ((zr.length : Int) - 1 + 1) = (zr.length : Int) := by ring
  simp only [zipPayloadReader.Next, hpos, ge_iff_le, le_refl, if_true]

theorem Open_at (pre rest : List zipFile) (f : zipFile) :
    (⟨pre ++ f :: rest, (pre.length : Int)⟩ : zipPayloadReader).Open
      = (.returns (fromLib f.Open), [.zipFileOpen pre.length]) := by
  have hlt : ¬ ((pre.length : Int) ≥ ((pre ++ f :: rest).length : Int)) := by
    simp only [List.length_append, List.length_cons]
    push_cast
    omega
  simp only [zipPayloadReader.Open, hlt, if_false, goIndex_append, Int.toNat_ofNat]

theorem findLoop_no_descriptor (w : World) (rest : List zipFile) :
    ∀ (pre : List zipFile) (fuel count : Nat) (last : String),
      (∀ g ∈ rest, isDescriptor g = false) → rest.length < fuel →
      findLoop w fuel ⟨pre ++ rest, (pre.length : Int) - 1⟩ count last
        = some (.returns (findFallback (count + rest.length) (lastName last rest)),
            List.replicate (rest.length + 1) .readerNext) := by
  induction rest with
  | nil =>
    intro pre fuel count last _ hfuel
    obtain ⟨fuel, rfl⟩ : ∃ n, fuel = n + 1 := ⟨fuel - 1, by omega⟩
    have hn := Next_end pre
    simp only [List.append_nil] at hn ⊢
    simp [findLoop, hn, lastName]
  | cons f rest ih =>
    intro pre fuel count last hnone hfuel
    obtain ⟨fuel, rfl⟩ : ∃ n, fuel = n + 1 := ⟨fuel - 1, by omega⟩
    have hf : descriptorParts (stringsSplit f.Name) = false := hnone f (List.mem_cons_self _ _)
    have hrest : ∀ g ∈ rest, isDescriptor g = false :=
      fun g hg => hnone g (List.mem_cons_of_mem _ hg)
    have hlen : rest.length < fuel := by
      simp only [List.length_cons] at hfuel
      omega
    have hrec := ih (pre ++ [f]) fuel (count + 1) f.Name hrest hlen
    have hstate : (⟨pre ++ [f] ++ rest, ((pre ++ [f]).length : Int) - 1⟩ : zipPayloadReader)
        = ⟨pre ++ f :: rest, (pre.length : Int)⟩ := by
      simp only [List.append_assoc, List.singleton_append, List.length_append,
        List.length_singleton]
      congr 1
      push_cast
      ring
    rw [hstate] at hrec
    unfold findLoop
    simp only [Next_at, hf, hrec, Bool.false_eq_true, if_false, lastName, List.length_cons]
    simp only [List.replicate_succ, Nat.add_assoc, Nat.add_comm 1]

theorem findLoop_first_descriptor (w : World) (mid : List zipFile) :
    ∀ (pre post : List zipFile) (f : zipFile) (fuel count : Nat) (last : String),
      (∀ g ∈ mid, isDescriptor g = false) → isDescriptor f = true → mid.length < fuel →
      findLoop w fuel ⟨pre ++ mid ++ f :: post, (pre.length : Int) - 1⟩ count last
        = some ((findOpen w ⟨pre ++ mid ++ f :: post, ((pre ++ mid).length : Int)⟩).1,
            List.replicate (mid.length + 1) .readerNext
              ++ (findOpen w ⟨pre ++ mid ++ f :: post, ((pre ++ mid).length : Int)⟩).2) := by
  induction mid with
  | nil =>
    intro pre post f fuel count last _ hf hfuel
    obtain ⟨fuel, rfl⟩ : ∃ n, fuel = n + 1 := ⟨fuel - 1, by omega⟩
    have hf1 : descriptorParts (stringsSplit f.Name) = true := hf
    simp only [List.append_nil]
    unfold findLoop
    simp only [Next_at, hf1, if_true, List.length_nil, Nat.zero_add, List.replicate_one,
      List.singleton_append]
  | cons g mid ih =>
    intro pre post f fuel count last hnone hf hfuel
    obtain ⟨fuel, rfl⟩ : ∃ n, fuel = n + 1 := ⟨fuel - 1, by omega⟩
    have hg : descriptorParts (stringsSplit g.Name) = false := hnone g (List.mem_cons_self _ _)
    have hmid : ∀ x ∈ mid, isDescriptor x = false :=
      fun x hx => hnone x (List.mem_cons_of_mem _ hx)
    have hlen : mid.length < fuel := by
      simp only [List.length_cons] at hfuel
      omega
    have hrec := ih (pre ++ [g]) post f fuel (count + 1) g.Name hmid hf hlen
    have hlist : pre ++ [g] ++ mid ++ f :: post = pre ++ g :: (mid ++ f :: post) := by simp
    have hlist2 : pre ++ g :: mid ++ f :: post = pre ++ g :: (mid ++ f :: post) := by simp
    have hpos : (((pre ++ [g]).length : Int) - 1) = (pre.length : Int) := by
      simp only [List.length_append, List.length_singleton]
      push_cast
      ring
    have hlen2 : ((pre ++ [g] ++ mid).length : Int) = ((pre ++ g :: mid).length : Int) := by
      simp
    rw [hlist, hpos, hlen2] at hrec
    rw [hlist2]
    unfold findLoop
    simp only [Next_at, hg, hrec, Bool.false_eq_true, if_false, List.length_cons]
    simp only [List.replicate_succ, List.cons_append]

theorem findOpen_at (w : World) (pre post : List zipFile) (f : zipFile) :
    ∃ o t, findOpen w ⟨pre ++ f :: post, (pre.length : Int)⟩
        = (o, .zipFileOpen pre.length :: t) ∧
      (∀ a ∈ t, a ≠ Action.readerNext ∧ ∀ i, a ≠ Action.zipFileOpen i) ∧
      (∀ content pl X, f.Open = .ok content → w.plistNew content = .ok pl →
        pl.BundleIdentifier = .ok X → o = .returns (X, none)) := by
  unfold findOpen
  rw [Open_at]
  cases hopen : f.Open with
  | error e =>
    refine ⟨_, [], rfl, by simp, ?_⟩
    intro content pl X h
    cases h
  | ok ff =>
    simp only [fromLib]
    cases hpl : w.plistNew ff with
    | error e =>
      refine ⟨_, [.plistNew, .streamClose], rfl, by simp, ?_⟩
      intro content pl X h1 h2
      simp only [Except.ok.injEq] at h1
      subst h1
      rw [hpl] at h2
      cases h2
    | ok pl =>
      simp only []
      cases hid : pl.BundleIdentifier with
      | error e =>
        refine ⟨_, [.plistNew, .bundleIdentifier, .streamClose], rfl, by simp, ?_⟩
        intro content pl1 X h1 h2 h3
        simp only [Except.ok.injEq] at h1
        subst h1
        rw [hpl] at h2
        simp only [Except.ok.injEq] at h2
        subst h2
        rw [hid] at h3
        cases h3
      | ok bundleID =>
        refine ⟨_, [.plistNew, .bundleIdentifier, .streamClose], rfl, by simp, ?_⟩
        intro content pl1 X h1 h2 h3
        simp only [Except.ok.injEq] at h1
        subst h1
        rw [hpl] at h2
        simp only [Except.ok.injEq] at h2
        subst h2
        rw [hid] at h3
        simp only [Except.ok.injEq] at h3
        subst h3
        rfl

/-- Claim C4: for a `.zip` payload that `zip.OpenReader` opens and whose entries include a
name of the descriptor shape (exactly three `/`-separated segments, the first with extension
`.app`, then `Contents`, then `Info.plist`), the resolver, given fuel for the entries up to
the first such name, calls `Next()` once per entry up to and including the first such entry,
opens that entry and no other, calls `Next()` no more, and returns the bundle identifier the
property-list reader gives for it. A name with a leading directory or a trailing segment
does not have the shape, so it is never the entry opened. -/
theorem C4_first_descriptor_wins (w : World) (payload : String) (zr : List zipFile)
    (hext : w.toLower (filepathExt payload) = ".zip") (hopen : w.zipOpenReader payload = .ok zr)
    (hsome : ∃ g ∈ zr, isDescriptor g = true) :
    (∃ pre f post, zr = pre ++ f :: post ∧ (∀ g ∈ pre, isDescriptor g = false) ∧
      isDescriptor f = true ∧
      ∀ fuel, pre.length < fuel →
        ∃ o t, findPrimaryBundleID w fuel payload
            = some (o, .zipOpenReader payload ::
                (List.replicate (pre.length + 1) .readerNext ++ .zipFileOpen pre.length :: t)) ∧
          (∀ a ∈ t, a ≠ Action.readerNext ∧ ∀ i, a ≠ Action.zipFileOpen i) ∧
          (∀ content pl X, f.Open = .ok content → w.plistNew content = .ok pl →
            pl.BundleIdentifier = .ok X → o = .returns (X, none))) ∧
    (∀ f : zipFile, isDescriptor f = true →
      ∃ p0, stringsSplit f.Name = [p0, "Contents", "Info.plist"] ∧ filepathExt p0 = ".app") ∧
    (descriptorParts (stringsSplit "Name.app/Contents/Info.plist") = true ∧
      descriptorParts (stringsSplit "dir/Name.app/Contents/Info.plist") = false ∧
      descriptorParts (stringsSplit "Name.app/Contents/Info.plist/extra") = false ∧
      descriptorParts (stringsSplit "Name.app/Contents/Resources/Info.plist") = false) := by
  refine ⟨?_, ?_, by decide⟩
  · cases hfind : zr.find? isDescriptor with
    | none =>
      obtain ⟨g, hg, hd⟩ := hsome
      rw [List.find?_eq_none] at hfind
      exact absurd hd (hfind g hg)
    | some f =>
      obtain ⟨hf, pre, post, hsplit, hpre⟩ := List.find?_eq_some.1 hfind
      have hpre1 : ∀ g ∈ pre, isDescriptor g = false := by
        intro g hg
        simpa using hpre g hg
      refine ⟨pre, f, post, hsplit, hpre1, hf, ?_⟩
      intro fuel hfuel
      obtain ⟨o, t, ho, ht, hX⟩ := findOpen_at w pre post f
      have hloop := findLoop_first_descriptor w pre [] post f fuel 0 "" hpre1 hf hfuel
      simp only [List.nil_append, List.length_nil, Nat.cast_zero, zero_sub] at hloop
      refine ⟨o, t, ?_, ht, hX⟩
      unfold findPrimaryBundleID
      simp only [hext, if_true, hopen, newZipPayloadReader, hsplit, hloop, ho]
  · intro f hf
    unfold isDescriptor descriptorParts at hf
    split at hf
    · rename_i p0 p1 p2 heq
      simp only [Bool.decide_and, Bool.and_eq_true, decide_eq_true_eq] at hf
      obtain ⟨h0, h1, h2⟩ := hf
      subst h1 h2
      exact ⟨p0, heq, h0⟩
    · cases hf

/-- Claim C4 at an archive whose third entry is the first of two top-level descriptors, after
a nested one: three calls of `Next()`, entry 2 opened, its identifier returned. -/
theorem C4_first_descriptor_wins_witness :
    findPrimaryBundleID (demoZipWorld demoArchive) 5 "App.zip"
      = some (.returns ("com.acme.first", none),
          [.zipOpenReader "App.zip", .readerNext, .readerNext, .readerNext, .zipFileOpen 2,
            .plistNew, .bundleIdentifier, .streamClose]) ∧
    ∃ pre f post, demoArchive = pre ++ f :: post ∧ (∀ g ∈ pre, isDescriptor g = false) ∧
      isDescriptor f = true ∧
      ∀ fuel, pre.length < fuel →
        ∃ o t, findPrimaryBundleID (demoZipWorld demoArchive) fuel "App.zip"
            = some (o, .zipOpenReader "App.zip" ::
                (List.replicate (pre.length + 1) .readerNext ++ .zipFileOpen pre.length :: t)) ∧
          (∀ a ∈ t, a ≠ Action.readerNext ∧ ∀ i, a ≠ Action.zipFileOpen i) ∧
          (∀ content pl X, f.Open = .ok content →
            (demoZipWorld demoArchive).plistNew content = .ok pl →
            pl.BundleIdentifier = .ok X → o = .returns (X, none)) :=
  ⟨by decide,
    (C4_first_descriptor_wins (demoZipWorld demoArchive) "App.zip" demoArchive (by decide) rfl
      ⟨⟨"Name.app/Contents/Info.plist", .ok "first"⟩, by simp [demoArchive], by decide⟩).1⟩

theorem stringsIndexByte_neg (s : String) (c : Char) :
    stringsIndexByte s c < 0 ↔ c ∉ s.data := by
  unfold stringsIndexByte
  by_cases h : c ∈ s.data
  · simp only [h, if_true, not_true_eq_false, iff_false, not_lt]
    exact Int.ofNat_nonneg _
  · simp [h]

/-- Claim C5: for a `.zip` payload that `zip.OpenReader` opens and none of whose entry names
has the descriptor shape, the resolver, given fuel for all entries, reads every entry name,
opens nothing, and returns the placeholder `com.example.` followed by the entry name when
the archive has exactly one entry and its name contains no `/`; in every other case (no
entry, one entry with a `/`, several entries) it returns the empty string and the
"could not find Info.plist" error. -/
theorem C5_no_descriptor_outcome (w : World) (payload : String) (zr : List zipFile)
    (fuel : Nat) (hext : w.toLower (filepathExt payload) = ".zip")
    (hopen : w.zipOpenReader payload = .ok zr)
    (hnone : ∀ g ∈ zr, isDescriptor g = false) (hfuel : zr.length < fuel) :
    (∀ g, zr = [g] → '/' ∉ g.Name.data →
      findPrimaryBundleID w fuel payload
        = some (.returns ("com.example." ++ g.Name, none),
            .zipOpenReader payload :: List.replicate (zr.length + 1) .readerNext)) ∧
    ((¬ ∃ g, zr = [g] ∧ '/' ∉ g.Name.data) →
      findPrimaryBundleID w fuel payload
        = some (.returns ("", some .noInfoPlist),
            .zipOpenReader payload :: List.replicate (zr.length + 1) .readerNext)) := by
  have hloop := findLoop_no_descriptor w zr [] fuel 0 "" hnone hfuel
  simp only [List.nil_append, List.length_nil, Nat.cast_zero, zero_sub, Nat.zero_add] at hloop
  have hfind : findPrimaryBundleID w fuel payload
      = some (.returns (findFallback zr.length (lastName "" zr)),
          .zipOpenReader payload :: List.replicate (zr.length + 1) .readerNext) := by
    unfold findPrimaryBundleID
    simp only [hext, if_true, hopen, newZipPayloadReader, hloop]
  refine ⟨?_, ?_⟩
  · intro g hg hslash
    rw [hfind]
    subst hg
    have hneg := (stringsIndexByte_neg g.Name '/').2 hslash
    simp [findFallback, lastName, hneg]
  · intro hnot
    rw [hfind]
    have hfb : findFallback zr.length (lastName "" zr) = ("", some .noInfoPlist) := by
      unfold findFallback
      rw [if_neg]
      rintro ⟨hlen, hidx⟩
      rcases zr with _ | ⟨g, _ | ⟨g2, rest⟩⟩
      · simp at hlen
      · exact hnot ⟨g, rfl, (stringsIndexByte_neg g.Name '/').1 hidx⟩
      · simp at hlen
    rw [hfb]

/-- Claim C5 at the archive with the single entry `tool`: the placeholder `com.example.tool`
is returned after two calls of `Next()`. -/
theorem C5_no_descriptor_outcome_witness :
    findPrimaryBundleID (demoZipWorld [⟨"tool", .ok "binary"⟩]) 2 "tool.zip"
      = some (.returns ("com.example." ++ "tool", none),
          .zipOpenReader "tool.zip" :: List.replicate (1 + 1) .readerNext) :=
  (C5_no_descriptor_outcome (demoZipWorld [⟨"tool", .ok "binary"⟩]) "tool.zip"
    [⟨"tool", .ok "binary"⟩] 2 (by decide) rfl (by decide) (by decide)).1
    ⟨"tool", .ok "binary"⟩ rfl (by decide)

/-! ## Archive reader: examples -/

/-- Claim C7 at the four-entry example archive: the third call of `Next()` returns the third
name and `Open()` then opens entry 2; the fifth call returns `io.EOF`. -/
theorem C7_cursor_enumerates_in_order_witness :
    (1 ≤ 3 ∧ 3 ≤ demoArchive.length ∧ demoArchive.length < 5) ∧
    (∃ e, demoArchive.get? (3 - 1) = some e ∧
      ((newZipPayloadReader demoArchive).afterCalls (3 - 1)).Next.1 = .returns (e.Name, none) ∧
      ((newZipPayloadReader demoArchive).afterCalls 3).Open
        = (.returns (fromLib e.Open), [.zipFileOpen (3 - 1)])) ∧
    ((newZipPayloadReader demoArchive).afterCalls (5 - 1)).Next.1
      = .returns ("", some ioEOF) :=
  ⟨by decide, (C7_cursor_enumerates_in_order demoArchive).1 3 (by decide) (by decide),
    (C7_cursor_enumerates_in_order demoArchive).2 5 (by decide)⟩

/-- Claim C6 at the four-entry example archive: `Open()` before any `Next()` panics; after
five calls of `Next()` it returns `io.EOF`. -/
theorem C6_open_outside_position_witness :
    demoArchive.length < 5 ∧
    (newZipPayloadReader demoArchive).Open = (.panics, []) ∧
    ((newZipPayloadReader demoArchive).afterCalls (5 - 1)).Next.1
      = .returns ("", some ioEOF) ∧
    ((newZipPayloadReader demoArchive).afterCalls 5).Open = (.returns (.error ioEOF), []) :=
  ⟨by decide, (C6_open_outside_position demoArchive).1,
    (C6_open_outside_position demoArchive).2 5 (by decide)⟩

end Staple
